import Mathlib

/-!
# Verification of the `event_dispatcher` listener registry and dispatch algorithm

Shallow embedding of the TypeScript sources:
* `SimpleEventDispatcher` (registry + dispatch without error isolation),
* `AbstractEventDispatcher` (subscriber expansion / symmetric removal),
* `NodeEventDispatcher.dispatch` and `BrowserEventDispatcher.dispatch`
  (dispatch loops with per-listener try/catch).

Modelling conventions:
* A JavaScript `Map` is an insertion-ordered association list (`set` on an
  existing key updates the value in place, on a new key appends at the end;
  `delete` removes the entry; iteration follows insertion order).
* Callback identity (`===` on function values) is a natural number id.
  Listener behaviour is an environment `Env` mapping an id and the current
  event state to the updated event state and a flag saying whether the call
  threw synchronously.
* An event object is its propagation flag (`stopped`), whether it structurally
  exposes `isPropagationStopped` (`stoppable`), the dynamic class name used
  for name resolution (`ctorName`), and a reference identity (`eventId`)
  that no operation of the program ever changes.
* JavaScript string truthiness: `if (eventName)` is false exactly for the
  empty string, `null` and `undefined`; `eventName ?? fallback` substitutes
  only for `null`/`undefined`, not for `""`.
* `Array.prototype.sort` with comparator `(a, b) => b.priority - a.priority`
  is required by ECMAScript to be stable, so it is modelled by a stable
  insertion sort, descending by priority.
-/

/-- Lookup in an insertion-ordered association list (JS `Map.get`). -/
def alistGet {α β : Type} [DecidableEq α] : List (α × β) → α → Option β
  | [], _ => none
  | (k, v) :: rest, key => if k = key then some v else alistGet rest key

/-- JS `Map.has`. -/
def alistHas {α β : Type} [DecidableEq α] (m : List (α × β)) (k : α) : Bool :=
  (alistGet m k).isSome

/-- JS `Map.set`: update the first matching key in place, else append. -/
def alistSet {α β : Type} [DecidableEq α] : List (α × β) → α → β → List (α × β)
  | [], key, v => [(key, v)]
  | (k, w) :: rest, key, v =>
    if k = key then (k, v) :: rest else (k, w) :: alistSet rest key v

/-- JS `Map.delete`: remove the first matching key. -/
def alistDelete {α β : Type} [DecidableEq α] : List (α × β) → α → List (α × β)
  | [], _ => []
  | (k, v) :: rest, key => if k = key then rest else (k, v) :: alistDelete rest key

/-- One registry entry: `{ listener, priority }` from the `listeners` map of
`SimpleEventDispatcher` (identical field layout in `NodeEventDispatcher`;
`BrowserEventDispatcher` additionally stores a `wrappedListener` that only
feeds the native `EventTarget` bridge, which is outside the modelled core). -/
structure Entry where
  listener : Nat
  priority : Int
deriving DecidableEq, Repr

/-- A dispatched event object: `stopped` is the `propagationStopped` flag of
`BaseEvent`, `stoppable` says whether the object structurally exposes
`isPropagationStopped` (the `isStoppableEvent` type guard of
`AbstractEventDispatcher`), `ctorName` is `event.constructor.name`, and
`eventId` models the object reference, which no program operation changes. -/
structure Event where
  eventId : Nat
  ctorName : String
  stoppable : Bool
  stopped : Bool
deriving DecidableEq, Repr

/-- Listener behaviour: an id applied to the current event state yields the
updated event state and whether the call threw synchronously. -/
def Env : Type := Nat → Event → Event × Bool

/-- Exceptions that can travel out of a dispatch call. -/
inductive JsError where
  | listenerError (id : Nat)
  | typeError
  | stackOverflow
deriving DecidableEq, Repr

/-- Result of `getListeners`: a single sorted callback sequence, the full
name-to-sequence mapping, or divergence (the unbounded recursion that the
source performs when the key `""` is present in the registry and the
all-names branch recurses into `getListeners("")` forever). -/
inductive GetListenersResult where
  | single : List Nat → GetListenersResult
  | all : List (String × List Nat) → GetListenersResult
  | diverge : GetListenersResult
deriving DecidableEq, Repr

/-- JS truthiness of an optional string argument (`if (eventName)`). -/
def optTruthy : Option String → Bool
  | none => false
  | some s => s ≠ ""

/-- Stable insertion (descending by priority): the new entry goes after every
entry with priority greater than or equal to its own. -/
def insertDesc (e : Entry) : List Entry → List Entry
  | [] => [e]
  | x :: xs => if e.priority ≤ x.priority then x :: insertDesc e xs else e :: x :: xs

/-- Stable sort, descending by priority — the model of
`listeners.sort((a, b) => b.priority - a.priority)` (ECMAScript guarantees
stability, and a stable sort's output is determined by the comparator). -/
def sortDesc (l : List Entry) : List Entry :=
  l.foldl (fun acc e => insertDesc e acc) []

/-- The registry state shared by all three dispatcher classes: the
`listeners` map and the per-name `sorted` flag map of
`SimpleEventDispatcher`.  `NodeEventDispatcher` and `BrowserEventDispatcher`
declare the same two fields and verbatim-identical bodies for `addListener`,
`removeListener`, `getListeners`, `getListenerPriority`, `hasListeners` and
`sortListeners`, so those operations are defined once on this state. -/
structure SimpleEventDispatcher where
  listeners : List (String × List Entry)
  sorted : List (String × Bool)
deriving DecidableEq, Repr

namespace SimpleEventDispatcher

/-- The freshly constructed dispatcher: both maps empty. -/
def empty : SimpleEventDispatcher := ⟨[], []⟩

/-- `addListener(eventName, listener, priority = 0)`. -/
def addListener (d : SimpleEventDispatcher) (eventName : String) (listener : Nat)
    (priority : Int) : SimpleEventDispatcher :=
  let d :=
    if ¬ alistHas d.listeners eventName then
      { d with listeners := alistSet d.listeners eventName [] }
    else d
  let cur := (alistGet d.listeners eventName).getD []
  { listeners := alistSet d.listeners eventName (cur ++ [⟨listener, priority⟩]),
    sorted := alistSet d.sorted eventName false }

/-- `Array.prototype.splice` of the first entry matching the callback, after
`findIndex`; the list is unchanged when no entry matches (`index === -1`). -/
def spliceFirst (p : Entry → Bool) : List Entry → List Entry
  | [] => []
  | x :: xs => if p x then xs else x :: spliceFirst p xs

/-- `removeListener(eventName, listener)`. -/
def removeListener (d : SimpleEventDispatcher) (eventName : String) (listener : Nat) :
    SimpleEventDispatcher :=
  if ¬ alistHas d.listeners eventName then d
  else
    let eventListeners := (alistGet d.listeners eventName).getD []
    let eventListeners := spliceFirst (fun item => item.listener = listener) eventListeners
    if eventListeners.length = 0 then
      { listeners := alistDelete d.listeners eventName,
        sorted := alistDelete d.sorted eventName }
    else
      { d with listeners := alistSet d.listeners eventName eventListeners }

/-- `sortListeners(eventName)`: stable in-place sort, then mark sorted. -/
def sortListeners (d : SimpleEventDispatcher) (eventName : String) : SimpleEventDispatcher :=
  let ls := (alistGet d.listeners eventName).getD []
  { listeners := alistSet d.listeners eventName (sortDesc ls),
    sorted := alistSet d.sorted eventName true }

/-- The truthy-name branch of `getListeners`: empty sequence for an unknown
name, otherwise sort lazily when the `sorted` flag is unset or `false`, and
project the callbacks. -/
def getListenersSingle (d : SimpleEventDispatcher) (eventName : String) :
    SimpleEventDispatcher × List Nat :=
  if ¬ alistHas d.listeners eventName then (d, [])
  else
    let d :=
      if ((alistGet d.sorted eventName).getD false) = false then sortListeners d eventName
      else d
    (d, ((alistGet d.listeners eventName).getD []).map Entry.listener)

/-- The all-names branch of `getListeners`: iterate the registry keys in
insertion order and recurse per name through the full `getListeners`.  A key
equal to `""` makes that recursive call take the all-names branch again,
which never returns (unbounded recursion in the source): modelled as
`GetListenersResult.diverge`. -/
def getListenersAllGo (d : SimpleEventDispatcher) (acc : List (String × List Nat)) :
    List String → SimpleEventDispatcher × GetListenersResult
  | [] => (d, .all acc)
  | name :: rest =>
    if name ≠ "" then
      let (d', ls) := getListenersSingle d name
      getListenersAllGo d' (acc ++ [(name, ls)]) rest
    else (d, .diverge)

/-- `getListeners(eventName?)`. -/
def getListeners (d : SimpleEventDispatcher) (eventName : Option String) :
    SimpleEventDispatcher × GetListenersResult :=
  if optTruthy eventName then
    let (d', ls) := getListenersSingle d (eventName.getD "")
    (d', .single ls)
  else
    getListenersAllGo d [] (d.listeners.map Prod.fst)

/-- `getListenerPriority(eventName, listener)`: note there is no truthiness
guard here — `""` is treated as a regular key. -/
def getListenerPriority (d : SimpleEventDispatcher) (eventName : String) (listener : Nat) :
    Option Int :=
  if ¬ alistHas d.listeners eventName then none
  else
    match ((alistGet d.listeners eventName).getD []).find?
        (fun item => item.listener = listener) with
    | some found => some found.priority
    | none => none

/-- `hasListeners(eventName?)`: per-name check for a truthy name, global
`listeners.size > 0` check otherwise (also for `""`). -/
def hasListeners (d : SimpleEventDispatcher) (eventName : Option String) : Bool :=
  if optTruthy eventName then
    let s := eventName.getD ""
    alistHas d.listeners s && ((alistGet d.listeners s).getD []).length > 0
  else
    d.listeners.length > 0

/-- `doDispatch` of `SimpleEventDispatcher`: sequential loop, stop-check
before each call, NO try/catch — a synchronously throwing listener aborts
the loop and the exception escapes.  Returns the threaded event state, the
ids invoked in order, and the escaped exception, if any. -/
def doDispatch (env : Env) : List Nat → Event → Event × List Nat × Option JsError
  | [], ev => (ev, [], none)
  | l :: rest, ev =>
    if ev.stoppable && ev.stopped then (ev, [], none)
    else
      let (ev', threw) := env l ev
      if threw then (ev', [l], some (.listenerError l))
      else
        let (evf, inv, exc) := doDispatch env rest ev'
        (evf, l :: inv, exc)

/-- `doDispatch` applied to whatever `getListeners(name)` produced: when the
name was `""` the cast `as EventListener[]` hides a `Map`, whose iteration
yields `[key, value]` pairs; calling such a pair as a function raises a
`TypeError` on the first iteration that passes the stop-check. -/
def doDispatchAny (env : Env) (res : GetListenersResult) (ev : Event) :
    Event × List Nat × Option JsError :=
  match res with
  | .single ls => doDispatch env ls ev
  | .all [] => (ev, [], none)
  | .all (_ :: _) =>
    if ev.stoppable && ev.stopped then (ev, [], none) else (ev, [], some .typeError)
  | .diverge => (ev, [], some .stackOverflow)

/-- Outcome of `SimpleEventDispatcher.dispatch`: final registry state,
threaded event, invocation trace, and the escaped exception when the call
did not return normally (`escaped = none` means the call returned). -/
structure DispatchResult where
  state : SimpleEventDispatcher
  event : Event
  invoked : List Nat
  escaped : Option JsError
deriving DecidableEq, Repr

/-- `dispatch(event, eventName?)` of `SimpleEventDispatcher`: resolve the
name with `??` (only `null`/`undefined` fall back to the class name), return
early when `hasListeners(name)` is false, else run `doDispatch` over the
lookup result. -/
def dispatch (d : SimpleEventDispatcher) (env : Env) (event : Event)
    (eventName : Option String) : DispatchResult :=
  let name := eventName.getD event.ctorName
  if ¬ hasListeners d (some name) then ⟨d, event, [], none⟩
  else
    let (d', res) := getListeners d (some name)
    let (ev', inv, exc) := doDispatchAny env res event
    ⟨d', ev', inv, exc⟩

end SimpleEventDispatcher

/-- Outcome of a `NodeEventDispatcher` / `BrowserEventDispatcher` dispatch:
like `SimpleEventDispatcher.DispatchResult` but with the diagnostic-sink
trace `reported` (one `console.error` call per caught failure). -/
structure CaughtDispatchResult where
  state : SimpleEventDispatcher
  event : Event
  invoked : List Nat
  reported : List JsError
  escaped : Option JsError
deriving DecidableEq, Repr

namespace NodeEventDispatcher

/-- The dispatch loop of `NodeEventDispatcher.dispatch` on an actual listener
array: `isStoppable` is computed once before the loop; each call is wrapped
in try/catch, a caught error is reported to the sink (`console.error`) and
the loop continues with the next listener.  (A returned `Promise` only has a
rejection handler attached — that is out-of-band and does not affect the
loop.)  Returns the threaded event, the invocation trace and the sink trace. -/
def dispatchLoop (env : Env) (isStoppable : Bool) :
    List Nat → Event → Event × List Nat × List JsError
  | [], ev => (ev, [], [])
  | l :: rest, ev =>
    if isStoppable && ev.stopped then (ev, [], [])
    else
      let (ev', threw) := env l ev
      let (evf, inv, rep) := dispatchLoop env isStoppable rest ev'
      (evf, l :: inv, if threw then .listenerError l :: rep else rep)

/-- The same loop when the `as EventListener[]` cast hides the full
name-to-sequence `Map` (resolved name `""`): each iteration calls a
`[key, value]` pair as a function, and the resulting `TypeError` is caught
by the try/catch and reported. -/
def dispatchLoopPairs (isStoppable : Bool) :
    List (String × List Nat) → Event → Event × List JsError
  | [], ev => (ev, [])
  | _ :: rest, ev =>
    if isStoppable && ev.stopped then (ev, [])
    else
      let (evf, rep) := dispatchLoopPairs isStoppable rest ev
      (evf, .typeError :: rep)

/-- `NodeEventDispatcher.dispatch(event, eventName?)`.  The
`emitter.emit(name, event)` mirror call fires only natively registered
listeners — `addListener` never registers on the emitter, so within the
modelled core it is a no-op.  The registry operations are the verbatim
bodies shared with `SimpleEventDispatcher`. -/
def dispatch (d : SimpleEventDispatcher) (env : Env) (event : Event)
    (eventName : Option String) : CaughtDispatchResult :=
  let name := eventName.getD event.ctorName
  if ¬ SimpleEventDispatcher.hasListeners d (some name) then ⟨d, event, [], [], none⟩
  else
    match SimpleEventDispatcher.getListeners d (some name) with
    | (d', .single ls) =>
      let (ev', inv, rep) := dispatchLoop env event.stoppable ls event
      ⟨d', ev', inv, rep, none⟩
    | (d', .all m) =>
      let (ev', rep) := dispatchLoopPairs event.stoppable m event
      ⟨d', ev', [], rep, none⟩
    | (d', .diverge) => ⟨d', event, [], [], some .stackOverflow⟩

end NodeEventDispatcher

namespace BrowserEventDispatcher

/-- The dispatch loop of `BrowserEventDispatcher.dispatch`: identical control
flow to the Node loop (hoisted `isStoppable`, stop-check, try/catch with a
`console.error` report, continue). -/
def dispatchLoop (env : Env) (isStoppable : Bool) :
    List Nat → Event → Event × List Nat × List JsError
  | [], ev => (ev, [], [])
  | l :: rest, ev =>
    if isStoppable && ev.stopped then (ev, [], [])
    else
      let (ev', threw) := env l ev
      let (evf, inv, rep) := dispatchLoop env isStoppable rest ev'
      (evf, l :: inv, if threw then .listenerError l :: rep else rep)

/-- The Browser loop over the mistyped full mapping, as in
`NodeEventDispatcher.dispatchLoopPairs`. -/
def dispatchLoopPairs (isStoppable : Bool) :
    List (String × List Nat) → Event → Event × List JsError
  | [], ev => (ev, [])
  | _ :: rest, ev =>
    if isStoppable && ev.stopped then (ev, [])
    else
      let (evf, rep) := dispatchLoopPairs isStoppable rest ev
      (evf, .typeError :: rep)

/-- `BrowserEventDispatcher.dispatch(event, eventName?)`.  The `CustomEvent`
mirrored onto the private `eventTarget` reaches no listeners (`addListener`
stores `wrappedListener` but never calls `eventTarget.addEventListener`), so
within the modelled core it is a no-op.  The registry operations are the
verbatim bodies shared with `SimpleEventDispatcher`. -/
def dispatch (d : SimpleEventDispatcher) (env : Env) (event : Event)
    (eventName : Option String) : CaughtDispatchResult :=
  let name := eventName.getD event.ctorName
  if ¬ SimpleEventDispatcher.hasListeners d (some name) then ⟨d, event, [], [], none⟩
  else
    match SimpleEventDispatcher.getListeners d (some name) with
    | (d', .single ls) =>
      let (ev', inv, rep) := dispatchLoop env event.stoppable ls event
      ⟨d', ev', inv, rep, none⟩
    | (d', .all m) =>
      let (ev', rep) := dispatchLoopPairs event.stoppable m event
      ⟨d', ev', [], rep, none⟩
    | (d', .diverge) => ⟨d', event, [], [], some .stackOverflow⟩

end BrowserEventDispatcher

/-- The value side of one entry of `getSubscribedEvents()`:
either a bare method name (priority 0) or `{ listener, priority? }`. -/
inductive SubscriberParams where
  | methodName (m : Nat)
  | withOptions (m : Nat) (priority : Option Int)
deriving DecidableEq, Repr

/-- A subscriber: its object identity and the `Object.entries` of its
`getSubscribedEvents()` result (keys of a JS object are unique). -/
structure Subscriber where
  id : Nat
  events : List (String × SubscriberParams)
deriving DecidableEq, Repr

/-- The priority resolved for one `getSubscribedEvents()` entry: bare method
names imply 0, `{ listener, priority? }` defaults the missing priority to 0. -/
def subscriberPriority : SubscriberParams → Int
  | .methodName _ => 0
  | .withOptions _ p => p.getD 0

/-- The state of `AbstractEventDispatcher` as completed by
`SimpleEventDispatcher`: the registry plus the `subscriberListeners` map
from subscriber identity to the per-event-name bound listeners created for
it. -/
structure AbstractEventDispatcher where
  core : SimpleEventDispatcher
  subscriberListeners : List (Nat × List (String × Nat))
deriving DecidableEq, Repr

namespace AbstractEventDispatcher

/-- `addSubscriber(subscriber)`: for each entry of `getSubscribedEvents()`,
resolve the priority (default 0), create the bound listener
(`(subscriber as any)[listenerName].bind(subscriber)` yields a fresh
function object — modelled by the identity-assignment `bind`), record it in
the per-subscriber `boundListeners` map, and register it via `addListener`;
finally store the map in `subscriberListeners`. -/
def addSubscriber (st : AbstractEventDispatcher) (subscriber : Subscriber)
    (bind : String → Nat) : AbstractEventDispatcher :=
  let step := fun (acc : SimpleEventDispatcher × List (String × Nat))
      (entry : String × SubscriberParams) =>
    let eventName := entry.1
    let priority : Int := subscriberPriority entry.2
    let boundListener := bind eventName
    (SimpleEventDispatcher.addListener acc.1 eventName boundListener priority,
     alistSet acc.2 eventName boundListener)
  let folded := subscriber.events.foldl step (st.core, [])
  { core := folded.1,
    subscriberListeners := alistSet st.subscriberListeners subscriber.id folded.2 }

/-- `removeSubscriber(subscriber)`: look up the retained bound listeners,
remove each via `removeListener`, and drop the record; no-op when the
subscriber was never added. -/
def removeSubscriber (st : AbstractEventDispatcher) (subscriber : Subscriber) :
    AbstractEventDispatcher :=
  match alistGet st.subscriberListeners subscriber.id with
  | none => st
  | some boundListeners =>
    { core := boundListeners.foldl
        (fun c p => SimpleEventDispatcher.removeListener c p.1 p.2) st.core,
      subscriberListeners := alistDelete st.subscriberListeners subscriber.id }

end AbstractEventDispatcher

/-! ## Environment predicates and sample data used in the theorems -/

/-- Listeners do not change whether the event exposes the stop capability
(true of every real JS listener short of deleting the method). -/
def StoppablePreserving (env : Env) : Prop :=
  ∀ l ev, ((env l ev).1).stoppable = ev.stoppable

/-- Listeners mutate the event object but never its reference identity. -/
def EventIdPreserving (env : Env) : Prop :=
  ∀ l ev, ((env l ev).1).eventId = ev.eventId

/-- No listener throws synchronously. -/
def NeverThrows (env : Env) : Prop := ∀ l ev, (env l ev).2 = false

/-- Whether a listener throws does not depend on the event state it is
handed (each call of a given listener either always throws or never does). -/
def ThrowDeterministic (env : Env) : Prop :=
  ∀ l e₁ e₂, (env l e₁).2 = (env l e₂).2

/-- A plain environment: every listener returns normally and leaves the
event unchanged. -/
def envPlain : Env := fun _ ev => (ev, false)

/-- A plain non-stoppable event. -/
def ev0 : Event := ⟨0, "E", false, false⟩

/-- Sample registry: one listener (id 0, priority 5) under `"x"`. -/
def sampleReg : SimpleEventDispatcher :=
  SimpleEventDispatcher.addListener SimpleEventDispatcher.empty "x" 0 5

/-- Registry after two adds under `"x"` and a sorting lookup: the `sorted`
flag for `"x"` is `true`. -/
def regAfterLookup : SimpleEventDispatcher :=
  (SimpleEventDispatcher.getListeners
    (SimpleEventDispatcher.addListener
      (SimpleEventDispatcher.addListener SimpleEventDispatcher.empty "x" 0 0) "x" 1 1)
    (some "x")).1

/-- The effect of `addListener(n, b, p)` on the `listeners` map alone, as a
pure map operation (used to reason about subscriber round trips). -/
def addL (m : List (String × List Entry)) (n : String) (b : Nat) (p : Int) :
    List (String × List Entry) :=
  alistSet m n ((alistGet m n).getD [] ++ [⟨b, p⟩])

/-- The effect of `removeListener(n, b)` on the `listeners` map alone. -/
def removeL (m : List (String × List Entry)) (n : String) (b : Nat) :
    List (String × List Entry) :=
  if ¬ alistHas m n then m
  else
    let ls := SimpleEventDispatcher.spliceFirst (fun item => item.listener = b)
      ((alistGet m n).getD [])
    if ls.length = 0 then alistDelete m n else alistSet m n ls

/-- An environment in which exactly listener 0 throws. -/
def envThrow0 : Env := fun l ev => (ev, l == 0)

/-- An environment in which exactly listener 4 throws. -/
def envThrow4 : Env := fun l ev => (ev, l == 4)

/-- Two listeners under `"x"`: id 0 at priority 5 (runs first), id 1 at
priority 0 (runs second). -/
def twoReg : SimpleEventDispatcher :=
  SimpleEventDispatcher.addListener
    (SimpleEventDispatcher.addListener SimpleEventDispatcher.empty "x" 0 5) "x" 1 0

/-- A three-listener environment for the stop-propagation witness: listener
1 stops the event, the others leave it unchanged; none throws. -/
def envStopper : Env :=
  fun l ev => (if l = 1 then { ev with stopped := true } else ev, false)

/-- A stop-capable event, not yet stopped. -/
def evStoppable : Event := ⟨1, "E", true, false⟩

/-- A two-event subscriber used in the C6 witness: `"x"` with explicit
priority 4 and `"y"` as a bare method name. -/
def sub0 : Subscriber := ⟨0, [("x", .withOptions 0 (some 4)), ("y", .methodName 1)]⟩

/-- A fresh-bound-listener assignment for the witness. -/
def bind0 : String → Nat := fun n => if n = "x" then 100 else 101

/-! ## Association-list lemmas -/

theorem alistGet_set_self {α β : Type} [DecidableEq α] (m : List (α × β)) (k : α) (v : β) :
    alistGet (alistSet m k v) k = some v := by
  induction m with
  | nil => simp [alistSet, alistGet]
  | cons p rest ih =>
    obtain ⟨k', w⟩ := p
    by_cases h : k' = k
    · subst h; simp [alistSet, alistGet]
    · simp [alistSet, alistGet, h, ih]

theorem alistGet_set_ne {α β : Type} [DecidableEq α] (m : List (α × β)) {k' k : α} (v : β)
    (h : k' ≠ k) : alistGet (alistSet m k' v) k = alistGet m k := by
  induction m with
  | nil => simp [alistSet, alistGet, h]
  | cons p rest ih =>
    obtain ⟨k₀, w⟩ := p
    by_cases h0 : k₀ = k'
    · subst h0; simp [alistSet, alistGet, h]
    · by_cases h1 : k₀ = k
      · subst h1; simp [alistSet, alistGet, h0]
      · simp [alistSet, alistGet, h0, h1, ih]

theorem alistGet_delete_ne {α β : Type} [DecidableEq α] (m : List (α × β)) {k' k : α}
    (h : k' ≠ k) : alistGet (alistDelete m k') k = alistGet m k := by
  induction m with
  | nil => simp [alistDelete]
  | cons p rest ih =>
    obtain ⟨k₀, w⟩ := p
    by_cases h0 : k₀ = k'
    · subst h0; simp [alistDelete, alistGet, h]
    · by_cases h1 : k₀ = k
      · subst h1; simp [alistDelete, alistGet, h0]
      · simp [alistDelete, alistGet, h0, h1, ih]

theorem alistGet_eq_none_iff {α β : Type} [DecidableEq α] (m : List (α × β)) (k : α) :
    alistGet m k = none ↔ k ∉ m.map Prod.fst := by
  induction m with
  | nil => simp [alistGet]
  | cons p rest ih =>
    obtain ⟨k₀, w⟩ := p
    by_cases h0 : k₀ = k
    · subst h0; simp [alistGet]
    · simp [alistGet, h0, ih, Ne.symm h0]

theorem alistGet_delete_self {α β : Type} [DecidableEq α] (m : List (α × β)) (k : α)
    (hnd : (m.map Prod.fst).Nodup) : alistGet (alistDelete m k) k = none := by
  induction m with
  | nil => simp [alistDelete, alistGet]
  | cons p rest ih =>
    obtain ⟨k₀, w⟩ := p
    simp only [List.map_cons, List.nodup_cons] at hnd
    by_cases h0 : k₀ = k
    · subst h0
      simp only [alistDelete, if_pos rfl]
      exact (alistGet_eq_none_iff rest k₀).2 hnd.1
    · simp [alistDelete, alistGet, h0, ih hnd.2]

theorem alistSet_get_self {α β : Type} [DecidableEq α] (m : List (α × β)) {k : α} {v : β}
    (h : alistGet m k = some v) : alistSet m k v = m := by
  induction m with
  | nil => simp [alistGet] at h
  | cons p rest ih =>
    obtain ⟨k₀, w⟩ := p
    by_cases h0 : k₀ = k
    · subst h0
      have hw : w = v := by simpa [alistGet] using h
      subst hw
      simp [alistSet]
    · have h' : alistGet rest k = some v := by simpa [alistGet, h0] using h
      simp [alistSet, h0, ih h']

theorem spliceFirst_of_forall_not {p : Entry → Bool} {l : List Entry}
    (h : ∀ x ∈ l, ¬ p x) : SimpleEventDispatcher.spliceFirst p l = l := by
  induction l with
  | nil => rfl
  | cons x xs ih =>
    have hx : ¬ p x := h x (List.mem_cons_self x xs)
    simp only [SimpleEventDispatcher.spliceFirst, if_neg hx]
    rw [ih fun y hy => h y (List.mem_cons_of_mem x hy)]

theorem spliceFirst_append_last {p : Entry → Bool} {l : List Entry} {e : Entry}
    (h : ∀ x ∈ l, ¬ p x) (he : p e) :
    SimpleEventDispatcher.spliceFirst p (l ++ [e]) = l := by
  induction l with
  | nil => simp [SimpleEventDispatcher.spliceFirst, he]
  | cons x xs ih =>
    have hx : ¬ p x := h x (List.mem_cons_self x xs)
    simp only [List.cons_append, SimpleEventDispatcher.spliceFirst, if_neg hx]
    exact congrArg (List.cons x) (ih fun y hy => h y (List.mem_cons_of_mem x hy))

theorem find?_first_match {p : Entry → Bool} (l₁ : List Entry) (e : Entry) (l₂ : List Entry)
    (he : p e) (h₁ : ∀ x ∈ l₁, ¬ p x) : (l₁ ++ e :: l₂).find? p = some e := by
  induction l₁ with
  | nil => simp [List.find?_cons, he]
  | cons x xs ih =>
    have hx : ¬ p x := h₁ x (List.mem_cons_self x xs)
    rw [List.cons_append, List.find?_cons_of_neg _ hx]
    exact ih fun y hy => h₁ y (List.mem_cons_of_mem x hy)

theorem alistSet_set_self {α β : Type} [DecidableEq α] (m : List (α × β)) (k : α) (v w : β) :
    alistSet (alistSet m k v) k w = alistSet m k w := by
  induction m with
  | nil => simp [alistSet]
  | cons p rest ih =>
    obtain ⟨k₀, u⟩ := p
    by_cases h0 : k₀ = k
    · subst h0; simp [alistSet]
    · simp [alistSet, h0, ih]

theorem alistSet_of_not_mem {α β : Type} [DecidableEq α] (m : List (α × β)) {k : α} (v : β)
    (h : alistGet m k = none) : alistSet m k v = m ++ [(k, v)] := by
  induction m with
  | nil => simp [alistSet]
  | cons p rest ih =>
    obtain ⟨k₀, w⟩ := p
    by_cases h0 : k₀ = k
    · subst h0; simp [alistGet] at h
    · simp only [alistGet, if_neg h0] at h
      simp [alistSet, h0, ih h]

theorem alistDelete_set_self_of_not_mem {α β : Type} [DecidableEq α] (m : List (α × β))
    {k : α} (v : β) (h : alistGet m k = none) : alistDelete (alistSet m k v) k = m := by
  induction m with
  | nil => simp [alistSet, alistDelete]
  | cons p rest ih =>
    obtain ⟨k₀, w⟩ := p
    by_cases h0 : k₀ = k
    · subst h0; simp [alistGet] at h
    · simp only [alistGet, if_neg h0] at h
      simp [alistSet, alistDelete, h0, ih h]

theorem alistSet_set_ne {α β : Type} [DecidableEq α] (m : List (α × β)) {k k' : α}
    (v' : β) (w : β) (hne : k ≠ k') (hk : (alistGet m k).isSome) :
    alistSet (alistSet m k' v') k w = alistSet (alistSet m k w) k' v' := by
  induction m with
  | nil => simp [alistGet] at hk
  | cons p rest ih =>
    obtain ⟨k₀, u⟩ := p
    by_cases h0 : k₀ = k'
    · subst h0
      simp [alistSet, hne, Ne.symm hne]
    · by_cases h1 : k₀ = k
      · subst h1; simp [alistSet, h0, Ne.symm h0]
      · simp only [alistGet, if_neg h1] at hk
        simp [alistSet, h0, h1, ih hk]

theorem alistDelete_set_ne {α β : Type} [DecidableEq α] (m : List (α × β)) {k k' : α}
    (v : β) (hne : k ≠ k') : alistDelete (alistSet m k' v) k = alistSet (alistDelete m k) k' v := by
  induction m with
  | nil => simp [alistSet, alistDelete, Ne.symm hne]
  | cons p rest ih =>
    obtain ⟨k₀, u⟩ := p
    by_cases h0 : k₀ = k'
    · subst h0
      simp [alistSet, alistDelete, Ne.symm hne]
    · by_cases h1 : k₀ = k
      · subst h1
        simp [alistSet, alistDelete, h0]
      · simp [alistSet, alistDelete, h0, h1, ih]

/-- `addListener` in single-`alistSet` form: the conditional creation of the
empty array followed by the push collapses to one map update appending the
new entry. -/
theorem addListener_eq (d : SimpleEventDispatcher) (n : String) (b : Nat) (p : Int) :
    SimpleEventDispatcher.addListener d n b p =
      ⟨alistSet d.listeners n ((alistGet d.listeners n).getD [] ++ [⟨b, p⟩]),
       alistSet d.sorted n false⟩ := by
  unfold SimpleEventDispatcher.addListener
  by_cases h : alistHas d.listeners n
  · simp [h]
  · have hnone : alistGet d.listeners n = none := by
      simpa [alistHas, Option.isSome_iff_ne_none] using h
    simp [h, hnone, alistGet_set_self, alistSet_set_self]

/-! ## C7: idempotent removal -/

/-- C7: `removeListener(eventName, callback)` with an unknown name, or with a
callback that is not registered under that name (never registered or already
removed), does not throw (the model is a total function) and leaves the
registry state unchanged.  The second part assumes the stored entry list is
nonempty, which holds in every reachable state (an emptied name is deleted). -/
theorem claim_C7_removeListener_noop (d : SimpleEventDispatcher) (name : String) (bid : Nat) :
    (alistGet d.listeners name = none →
      SimpleEventDispatcher.removeListener d name bid = d) ∧
    (∀ ls, alistGet d.listeners name = some ls → ls ≠ [] →
      (∀ e ∈ ls, e.listener ≠ bid) →
      SimpleEventDispatcher.removeListener d name bid = d) := by
  constructor
  · intro h
    simp [SimpleEventDispatcher.removeListener, alistHas, h]
  · intro ls h hne hfresh
    have hsplice : SimpleEventDispatcher.spliceFirst (fun item => item.listener = bid) ls = ls :=
      spliceFirst_of_forall_not (by intro x hx; simpa using hfresh x hx)
    have hlen : ¬ ls.length = 0 := by simpa [List.length_eq_zero] using hne
    simp only [SimpleEventDispatcher.removeListener, alistHas, h, Option.isSome_some,
      Bool.not_true, Bool.false_eq_true, if_false, Option.getD_some, hsplice, if_neg hlen]
    rw [alistSet_get_self _ h]
    simp

/-- Witness for C7 at a concrete registry: removing under the unknown name
`"y"`, and removing the unregistered callback 1 under `"x"`, both leave the
registry unchanged. -/
theorem claim_C7_witness :
    SimpleEventDispatcher.removeListener sampleReg "y" 1 = sampleReg ∧
    SimpleEventDispatcher.removeListener sampleReg "x" 1 = sampleReg :=
  ⟨(claim_C7_removeListener_noop sampleReg "y" 1).1 (by decide),
   (claim_C7_removeListener_noop sampleReg "x" 1).2 [⟨0, 5⟩] (by decide) (by decide)
     (by decide)⟩

/-! ## C9: getListenerPriority -/

/-- C9: `getListenerPriority(eventName, listener)` returns exactly the stored
priority of the first entry whose callback matches by identity (the stored
priority may be 0 or negative — the entry object, not the priority, is what
the source tests for truthiness), and returns the `null` sentinel if and
only if no entry under that name has a matching callback (in particular
when the name is absent). -/
theorem claim_C9_getListenerPriority (d : SimpleEventDispatcher) (name : String) (bid : Nat) :
    (∀ (l₁ : List Entry) (e : Entry) (l₂ : List Entry),
      alistGet d.listeners name = some (l₁ ++ e :: l₂) → e.listener = bid →
      (∀ x ∈ l₁, x.listener ≠ bid) →
      SimpleEventDispatcher.getListenerPriority d name bid = some e.priority) ∧
    (SimpleEventDispatcher.getListenerPriority d name bid = none ↔
      ∀ e ∈ (alistGet d.listeners name).getD [], e.listener ≠ bid) := by
  constructor
  · intro l₁ e l₂ h he hfirst
    have hfind : (l₁ ++ e :: l₂).find? (fun item => item.listener = bid) = some e :=
      find?_first_match l₁ e l₂ (by simpa using he) (by intro x hx; simpa using hfirst x hx)
    simp [SimpleEventDispatcher.getListenerPriority, alistHas, h, hfind]
  · cases h : alistGet d.listeners name with
    | none =>
      simp [SimpleEventDispatcher.getListenerPriority, alistHas, h]
    | some ls =>
      cases hfind : ls.find? (fun item => item.listener = bid) with
      | none =>
        have hall : ∀ e ∈ ls, e.listener ≠ bid := by
          intro e he
          have := List.find?_eq_none.1 hfind e he
          simpa using this
        have hres : SimpleEventDispatcher.getListenerPriority d name bid = none := by
          simp [SimpleEventDispatcher.getListenerPriority, alistHas, h, hfind]
        rw [hres]
        exact ⟨fun _ => hall, fun _ => rfl⟩
      | some found =>
        have hmem := List.mem_of_find?_eq_some hfind
        have hfb : found.listener = bid := by
          have := List.find?_some hfind
          simpa using this
        simp only [SimpleEventDispatcher.getListenerPriority, alistHas, h, Option.isSome_some,
          Bool.not_true, Bool.false_eq_true, if_false, Option.getD_some, hfind]
        constructor
        · intro hcontra
          exact absurd hcontra (by simp)
        · intro hall
          exact absurd hfb (hall found hmem)

/-- Witness for C9 at a concrete registry holding priorities 0 and -3: the
stored priorities (including zero and a negative one) are returned, and the
sentinel appears exactly for an unmatched callback. -/
theorem claim_C9_witness :
    SimpleEventDispatcher.getListenerPriority
      (SimpleEventDispatcher.addListener
        (SimpleEventDispatcher.addListener SimpleEventDispatcher.empty "x" 0 0) "x" 1 (-3))
      "x" 1 = some (-3) :=
  (claim_C9_getListenerPriority
      (SimpleEventDispatcher.addListener
        (SimpleEventDispatcher.addListener SimpleEventDispatcher.empty "x" 0 0) "x" 1 (-3))
      "x" 1).1 [⟨0, 0⟩] ⟨1, -3⟩ [] (by decide) (by decide) (by decide)

/-! ## C5: the sort-cache flag -/

/-- Counterexample to C5 as stated: before the removal the flag for `"x"` is
`true` (clean), the removal genuinely deletes one of the two entries, and
the flag is still `true` afterwards — `removeListener` did not mark the name
dirty. -/
theorem claim_C5_counterexample :
    alistGet regAfterLookup.sorted "x" = some true ∧
    (SimpleEventDispatcher.removeListener regAfterLookup "x" 0).listeners
      = [("x", [⟨1, 1⟩])] ∧
    alistGet (SimpleEventDispatcher.removeListener regAfterLookup "x" 0).sorted "x"
      = some true := by decide

/-- C5 amended: the dirty flag (`sorted = false`) is set by every
`addListener` and cleared (`sorted = true`) by the sort step of a lookup;
`removeListener` leaves the flag untouched while entries remain (sound,
since removing an entry preserves sortedness) and deletes the flag together
with the name when the last entry is removed. -/
theorem claim_C5_amended (d : SimpleEventDispatcher) (name : String) (bid : Nat) (p : Int) :
    alistGet (SimpleEventDispatcher.addListener d name bid p).sorted name = some false ∧
    alistGet (SimpleEventDispatcher.sortListeners d name).sorted name = some true ∧
    (∀ ls, alistGet d.listeners name = some ls →
      SimpleEventDispatcher.spliceFirst (fun i => i.listener = bid) ls ≠ [] →
      (SimpleEventDispatcher.removeListener d name bid).sorted = d.sorted) ∧
    ((d.sorted.map Prod.fst).Nodup →
      ∀ ls, alistGet d.listeners name = some ls →
      SimpleEventDispatcher.spliceFirst (fun i => i.listener = bid) ls = [] →
      alistGet (SimpleEventDispatcher.removeListener d name bid).sorted name = none) := by
  refine ⟨?_, ?_, ?_, ?_⟩
  · simp [SimpleEventDispatcher.addListener, alistGet_set_self]
  · simp [SimpleEventDispatcher.sortListeners, alistGet_set_self]
  · intro ls h hsp
    have hlen : ¬ (SimpleEventDispatcher.spliceFirst
        (fun item => item.listener = bid) ls).length = 0 := by
      simpa [List.length_eq_zero] using hsp
    simp [SimpleEventDispatcher.removeListener, alistHas, h, hlen]
  · intro hnd ls h hsp
    have hlen : (SimpleEventDispatcher.spliceFirst
        (fun item => item.listener = bid) ls).length = 0 := by
      simp [hsp]
    simp [SimpleEventDispatcher.removeListener, alistHas, h, hlen,
      alistGet_delete_self _ _ hnd]

/-- Witness for the amended C5 at concrete registries: add marks dirty, the
lookup's sort step marks clean, a removal that leaves an entry keeps the
flag, and a removal that empties the name deletes the flag. -/
theorem claim_C5_amended_witness :
    alistGet (SimpleEventDispatcher.addListener regAfterLookup "x" 7 7).sorted "x"
      = some false ∧
    alistGet (SimpleEventDispatcher.sortListeners regAfterLookup "x").sorted "x"
      = some true ∧
    (SimpleEventDispatcher.removeListener regAfterLookup "x" 0).sorted
      = regAfterLookup.sorted ∧
    alistGet (SimpleEventDispatcher.removeListener sampleReg "x" 0).sorted "x" = none :=
  ⟨(claim_C5_amended regAfterLookup "x" 7 7).1,
   (claim_C5_amended regAfterLookup "x" 7 7).2.1,
   (claim_C5_amended regAfterLookup "x" 0 0).2.2.1 [⟨1, 1⟩, ⟨0, 0⟩] (by decide) (by decide),
   (claim_C5_amended sampleReg "x" 0 0).2.2.2 (by decide) [⟨0, 5⟩] (by decide) (by decide)⟩

/-! ## C10: the empty string at the query and dispatch interface -/

/-- C10: the empty string is not usable as an ordinary event name at the
query and dispatch interface — `hasListeners("")` is the global
any-listeners check, `getListeners("")` is the full-mapping branch, and
`dispatch(e, "")` resolves its listener lookup through those same global
branches — while `addListener` and `getListenerPriority` treat `""` as a
regular key. -/
theorem claim_C10_empty_name (d : SimpleEventDispatcher) (env : Env) (ev : Event)
    (bid : Nat) (p : Int) :
    SimpleEventDispatcher.hasListeners d (some "")
      = SimpleEventDispatcher.hasListeners d none ∧
    SimpleEventDispatcher.getListeners d (some "")
      = SimpleEventDispatcher.getListeners d none ∧
    SimpleEventDispatcher.dispatch d env ev (some "") =
      (if ¬ SimpleEventDispatcher.hasListeners d none then ⟨d, ev, [], none⟩
       else
        let pr := SimpleEventDispatcher.getListeners d none
        let tr := SimpleEventDispatcher.doDispatchAny env pr.2 ev
        ⟨pr.1, tr.1, tr.2.1, tr.2.2⟩) ∧
    alistGet (SimpleEventDispatcher.addListener d "" bid p).listeners ""
      = some ((alistGet d.listeners "").getD [] ++ [⟨bid, p⟩]) ∧
    ((∀ e ∈ (alistGet d.listeners "").getD [], e.listener ≠ bid) →
      SimpleEventDispatcher.getListenerPriority
        (SimpleEventDispatcher.addListener d "" bid p) "" bid = some p) := by
  have h1 : SimpleEventDispatcher.hasListeners d (some "")
      = SimpleEventDispatcher.hasListeners d none := by
    simp [SimpleEventDispatcher.hasListeners, optTruthy]
  have h2 : SimpleEventDispatcher.getListeners d (some "")
      = SimpleEventDispatcher.getListeners d none := by
    simp [SimpleEventDispatcher.getListeners, optTruthy]
  refine ⟨h1, h2, ?_, ?_, ?_⟩
  · simp only [SimpleEventDispatcher.dispatch, Option.getD_some, h1, h2]
  · rw [addListener_eq]
    exact alistGet_set_self _ _ _
  · intro hfresh
    rw [addListener_eq]
    have hget : alistGet (alistSet d.listeners ""
        ((alistGet d.listeners "").getD [] ++ [⟨bid, p⟩])) ""
        = some ((alistGet d.listeners "").getD [] ++ [⟨bid, p⟩]) :=
      alistGet_set_self _ _ _
    have hfind : ((alistGet d.listeners "").getD [] ++ ([⟨bid, p⟩] : List Entry)).find?
        (fun item => item.listener = bid) = some ⟨bid, p⟩ := by
      have hsplit : (alistGet d.listeners "").getD [] ++ ([⟨bid, p⟩] : List Entry)
          = (alistGet d.listeners "").getD [] ++ (⟨bid, p⟩ : Entry) :: [] := rfl
      rw [hsplit]
      apply find?_first_match
      · simp
      · intro x hx
        simpa using hfresh x hx
    simp [SimpleEventDispatcher.getListenerPriority, alistHas, hget, hfind]

/-- Witness for C10 at a concrete registry: the `""` query goes to the
global branch, while `""` works as a regular key for `addListener` and
`getListenerPriority`. -/
theorem claim_C10_witness :
    SimpleEventDispatcher.hasListeners sampleReg (some "")
      = SimpleEventDispatcher.hasListeners sampleReg none ∧
    SimpleEventDispatcher.getListenerPriority
      (SimpleEventDispatcher.addListener sampleReg "" 3 (-2)) "" 3 = some (-2) :=
  ⟨(claim_C10_empty_name sampleReg envPlain ev0 3 (-2)).1,
   (claim_C10_empty_name sampleReg envPlain ev0 3 (-2)).2.2.2.2 (by decide)⟩

/-! ## C8: empty-name cleanup -/

theorem alistGet_append_single {α β : Type} [DecidableEq α] (a : List (α × β)) {k n : α}
    (v : β) (hne : k ≠ n) (h : alistGet a k = none) :
    alistGet (a ++ [(n, v)]) k = none := by
  induction a with
  | nil => simp [alistGet, Ne.symm hne]
  | cons p rest ih =>
    obtain ⟨k₀, w⟩ := p
    by_cases h0 : k₀ = k
    · subst h0; simp [alistGet] at h
    · have h' : alistGet rest k = none := by simpa [alistGet, h0] using h
      simp [alistGet, h0, ih h']

/-- If a key is neither among the remaining names nor in the accumulator,
then it is absent from any full mapping the all-names branch returns. -/
theorem getListenersAllGo_get_none :
    ∀ (names : List String) (d : SimpleEventDispatcher) (acc : List (String × List Nat))
      (k : String), k ∉ names → alistGet acc k = none →
      ∀ m, (SimpleEventDispatcher.getListenersAllGo d acc names).2 = .all m →
        alistGet m k = none := by
  intro names
  induction names with
  | nil =>
    intro d acc k _ hacc m hm
    simp only [SimpleEventDispatcher.getListenersAllGo] at hm
    cases hm
    exact hacc
  | cons n rest ih =>
    intro d acc k hnot hacc m hm
    have hkn : k ≠ n := fun h => hnot (h ▸ List.mem_cons_self n rest)
    have hkrest : k ∉ rest := fun h => hnot (List.mem_cons_of_mem n h)
    by_cases hn : n ≠ ""
    · simp only [SimpleEventDispatcher.getListenersAllGo, if_pos hn] at hm
      exact ih _ _ k hkrest
        (alistGet_append_single acc _ hkn hacc) m hm
    · simp only [SimpleEventDispatcher.getListenersAllGo, if_neg hn] at hm
      cases hm

/-- C8 counterexample to the claim as stated, at the event name `""`: a
registry holds one listener under `""` and one under `"x"`; removing the
last entry under `""` deletes the name, yet `hasListeners("")` returns
`true` because the empty string falls into the global any-listeners branch. -/
theorem claim_C8_counterexample :
    alistGet (SimpleEventDispatcher.removeListener
      (SimpleEventDispatcher.addListener
        (SimpleEventDispatcher.addListener SimpleEventDispatcher.empty "" 0 0) "x" 1 0)
      "" 0).listeners "" = none ∧
    SimpleEventDispatcher.hasListeners
      (SimpleEventDispatcher.removeListener
        (SimpleEventDispatcher.addListener
          (SimpleEventDispatcher.addListener SimpleEventDispatcher.empty "" 0 0) "x" 1 0)
        "" 0) (some "") = true := by decide

/-- C8 amended: after `removeListener` removes the last remaining entry for
a name, the name is deleted from the registry and is absent from the
mapping returned by `getListeners()` with no argument; and for every
NONEMPTY name, `hasListeners(name)` returns `false` (for `""` the lookup
falls back to the global any-listeners check, per the `""` behaviour of the
interface). -/
theorem claim_C8_amended (d : SimpleEventDispatcher) (name : String) (e : Entry) (bid : Nat)
    (hkeys : (d.listeners.map Prod.fst).Nodup)
    (hget : alistGet d.listeners name = some [e]) (hbid : e.listener = bid) :
    alistGet (SimpleEventDispatcher.removeListener d name bid).listeners name = none ∧
    (name ≠ "" → SimpleEventDispatcher.hasListeners
      (SimpleEventDispatcher.removeListener d name bid) (some name) = false) ∧
    (∀ m, (SimpleEventDispatcher.getListeners
        (SimpleEventDispatcher.removeListener d name bid) none).2 = .all m →
      alistGet m name = none) := by
  have hsp : SimpleEventDispatcher.spliceFirst (fun item => item.listener = bid) [e] = [] := by
    simp [SimpleEventDispatcher.spliceFirst, hbid]
  have hrm : SimpleEventDispatcher.removeListener d name bid =
      ⟨alistDelete d.listeners name, alistDelete d.sorted name⟩ := by
    simp [SimpleEventDispatcher.removeListener, alistHas, hget, hsp]
  have hnone : alistGet (alistDelete d.listeners name) name = none :=
    alistGet_delete_self _ _ hkeys
  refine ⟨by rw [hrm]; exact hnone, ?_, ?_⟩
  · intro hne
    rw [hrm]
    simp [SimpleEventDispatcher.hasListeners, optTruthy, hne, alistHas, hnone]
  · intro m hm
    rw [hrm] at hm
    have hnames : name ∉ (alistDelete d.listeners name).map Prod.fst := by
      rw [← alistGet_eq_none_iff]
      exact hnone
    have hmain := getListenersAllGo_get_none
      ((alistDelete d.listeners name).map Prod.fst)
      ⟨alistDelete d.listeners name, alistDelete d.sorted name⟩ [] name hnames rfl m
    apply hmain
    simpa [SimpleEventDispatcher.getListeners, optTruthy] using hm

/-- Witness for the amended C8: removing the only listener of `"x"` deletes
the name, makes `hasListeners("x")` false, and the no-argument
`getListeners()` mapping (concretely `[]`) does not contain `"x"`. -/
theorem claim_C8_witness :
    alistGet (SimpleEventDispatcher.removeListener sampleReg "x" 0).listeners "x" = none ∧
    SimpleEventDispatcher.hasListeners
      (SimpleEventDispatcher.removeListener sampleReg "x" 0) (some "x") = false ∧
    alistGet ([] : List (String × List Nat)) "x" = none :=
  ⟨(claim_C8_amended sampleReg "x" ⟨0, 5⟩ 0 (by decide) (by decide) (by decide)).1,
   (claim_C8_amended sampleReg "x" ⟨0, 5⟩ 0 (by decide) (by decide) (by decide)).2.1
     (by decide),
   (claim_C8_amended sampleReg "x" ⟨0, 5⟩ 0 (by decide) (by decide) (by decide)).2.2
     [] (by decide)⟩

/-! ## C3: stop propagation -/

/-- An already-stopped stop-capable event makes `doDispatch` return
immediately without invoking anyone. -/
theorem doDispatch_stopped (env : Env) (ls : List Nat) (ev : Event)
    (h1 : ev.stoppable = true) (h2 : ev.stopped = true) :
    SimpleEventDispatcher.doDispatch env ls ev = (ev, [], none) := by
  cases ls with
  | nil => rfl
  | cons l rest => simp [SimpleEventDispatcher.doDispatch, h1, h2]

/-- Under a stoppability-preserving environment, the event threaded through
`doDispatch` keeps its `stoppable` field. -/
theorem doDispatch_stoppable (env : Env) (hp : StoppablePreserving env) :
    ∀ (ls : List Nat) (ev : Event),
      ((SimpleEventDispatcher.doDispatch env ls ev).1).stoppable = ev.stoppable := by
  intro ls
  induction ls with
  | nil => intro ev; rfl
  | cons l rest ih =>
    intro ev
    by_cases hstop : ev.stoppable = true ∧ ev.stopped = true
    · simp [SimpleEventDispatcher.doDispatch, hstop.1, hstop.2]
    · rcases henv : env l ev with ⟨ev', threw⟩
      have hev' : ev'.stoppable = ev.stoppable := by
        have := hp l ev
        rw [henv] at this
        exact this
      cases threw with
      | true => simp [SimpleEventDispatcher.doDispatch, hstop, henv, hev']
      | false => simp [SimpleEventDispatcher.doDispatch, hstop, henv, ih ev', hev']

/-- If `doDispatch` runs the prefix `pre` to completion without an exception,
reaching state `evk` with propagation not yet stopped, and the next listener
`lk` returns normally having set the stop flag, then the whole run invokes
exactly the prefix plus `lk` — nothing from `post` — and ends stopped. -/
theorem doDispatch_stop_at (env : Env) (hp : StoppablePreserving env) :
    ∀ (pre : List Nat) (ev : Event), ev.stoppable = true →
      ∀ (lk : Nat) (post : List Nat) (evk evk' : Event) (inv : List Nat),
      SimpleEventDispatcher.doDispatch env pre ev = (evk, inv, none) →
      evk.stopped = false →
      env lk evk = (evk', false) →
      evk'.stopped = true →
      SimpleEventDispatcher.doDispatch env (pre ++ lk :: post) ev
        = (evk', inv ++ [lk], none) := by
  intro pre
  induction pre with
  | nil =>
    intro ev hstoppable lk post evk evk' inv hpre hnstop henv hstopped
    have hpre' : (ev, ([], none)) = ((evk, inv, none) :
        Event × List Nat × Option JsError) := hpre
    obtain ⟨h1, h2⟩ := Prod.mk.injEq .. ▸ hpre'
    obtain ⟨h2, -⟩ := Prod.mk.injEq .. ▸ h2
    subst h1
    subst h2
    have hstoppable' : evk'.stoppable = true := by
      have := hp lk ev
      rw [henv] at this
      rw [this]
      exact hstoppable
    rw [List.nil_append]
    simp [SimpleEventDispatcher.doDispatch, hnstop, henv,
      doDispatch_stopped env post evk' hstoppable' hstopped]
  | cons a pre' ih =>
    intro ev hstoppable lk post evk evk' inv hpre hnstop henv hstopped
    by_cases hstop : ev.stoppable = true ∧ ev.stopped = true
    · rw [doDispatch_stopped env (a :: pre') ev hstop.1 hstop.2] at hpre
      have hevk : ev = evk := congrArg Prod.fst hpre
      rw [← hevk] at hnstop
      rw [hstop.2] at hnstop
      cases hnstop
    · rcases henva : env a ev with ⟨ev₁, threw⟩
      cases threw with
      | true =>
        rw [show SimpleEventDispatcher.doDispatch env (a :: pre') ev
            = (ev₁, [a], some (.listenerError a)) by
          simp [SimpleEventDispatcher.doDispatch, hstop, henva]] at hpre
        exact absurd (congrArg (fun r => r.2.2) hpre) (by simp)
      | false =>
        have hev₁ : ev₁.stoppable = true := by
          have := hp a ev
          rw [henva] at this
          rw [this]
          exact hstoppable
        obtain ⟨inv', hrest, hinv⟩ : ∃ inv', SimpleEventDispatcher.doDispatch env pre' ev₁
            = (evk, inv', none) ∧ inv = a :: inv' := by
          rcases hrest : SimpleEventDispatcher.doDispatch env pre' ev₁ with ⟨evf, inv', exc⟩
          rw [show SimpleEventDispatcher.doDispatch env (a :: pre') ev
              = (evf, a :: inv', exc) by
            simp [SimpleEventDispatcher.doDispatch, hstop, henva, hrest]] at hpre
          have h1 : evf = evk := congrArg Prod.fst hpre
          have h2 : a :: inv' = inv := congrArg (fun r => r.2.1) hpre
          have h3 : exc = none := congrArg (fun r => r.2.2) hpre
          subst h1
          subst h3
          exact ⟨inv', rfl, h2.symm⟩
        have hmain := ih ev₁ hev₁ lk post evk evk' inv' hrest hnstop henv hstopped
        rw [List.cons_append]
        rw [show SimpleEventDispatcher.doDispatch env (a :: (pre' ++ lk :: post)) ev
            = ((SimpleEventDispatcher.doDispatch env (pre' ++ lk :: post) ev₁).1,
               a :: (SimpleEventDispatcher.doDispatch env (pre' ++ lk :: post) ev₁).2.1,
               (SimpleEventDispatcher.doDispatch env (pre' ++ lk :: post) ev₁).2.2) by
          simp [SimpleEventDispatcher.doDispatch, hstop, henva]]
        rw [hmain]
        rw [hinv]
        simp

/-- Whatever `getListeners` produced, an already-stopped stop-capable event
is dispatched to zero listeners. -/
theorem doDispatchAny_stopped_invoked (env : Env) (res : GetListenersResult) (ev : Event)
    (h1 : ev.stoppable = true) (h2 : ev.stopped = true) :
    (SimpleEventDispatcher.doDispatchAny env res ev).2.1 = [] := by
  cases res with
  | single ls => simp [SimpleEventDispatcher.doDispatchAny,
      doDispatch_stopped env ls ev h1 h2]
  | all m => cases m <;> simp [SimpleEventDispatcher.doDispatchAny, h1, h2]
  | diverge => rfl

/-- C3: during a `SimpleEventDispatcher` dispatch of a stop-capable event,
the stopped flag is checked before invoking each listener.  Part one: an
event already stopped when `dispatch` is called invokes zero listeners.
Part two: if the loop reaches listener `lk` with propagation not yet
stopped and `lk` returns normally having set the flag, then no listener
after `lk` in the sorted sequence is invoked in that run, and the event is
reported stopped when the loop returns. -/
theorem claim_C3_stop_check (env : Env) (hp : StoppablePreserving env) (ev : Event)
    (hstoppable : ev.stoppable = true) :
    (ev.stopped = true →
      ∀ (d : SimpleEventDispatcher) (eventName : Option String),
        (SimpleEventDispatcher.dispatch d env ev eventName).invoked = []) ∧
    (∀ (pre : List Nat) (lk : Nat) (post : List Nat) (evk evk' : Event) (inv : List Nat),
      SimpleEventDispatcher.doDispatch env pre ev = (evk, inv, none) →
      evk.stopped = false →
      env lk evk = (evk', false) →
      evk'.stopped = true →
      SimpleEventDispatcher.doDispatch env (pre ++ lk :: post) ev
        = (evk', inv ++ [lk], none) ∧
      ((SimpleEventDispatcher.doDispatch env (pre ++ lk :: post) ev).1).stopped = true) := by
  constructor
  · intro hstopped d eventName
    simp only [SimpleEventDispatcher.dispatch]
    split
    · rfl
    · rcases hget : SimpleEventDispatcher.getListeners d
        (some (eventName.getD ev.ctorName)) with ⟨d', res⟩
      simp only [hget]
      exact doDispatchAny_stopped_invoked env res ev hstoppable hstopped
  · intro pre lk post evk evk' inv hpre hnstop henv hstopped
    have hrun := doDispatch_stop_at env hp pre ev hstoppable lk post evk evk' inv
      hpre hnstop henv hstopped
    exact ⟨hrun, by rw [hrun]; exact hstopped⟩

/-- Witness for C3 at concrete inputs: dispatching the already-stopped event
invokes nobody, and in the run `[0, 1, 2]` where listener 1 stops the event,
listener 2 is never invoked and the final event is stopped. -/
theorem claim_C3_witness :
    (SimpleEventDispatcher.dispatch sampleReg envStopper
      { evStoppable with stopped := true } (some "x")).invoked = [] ∧
    SimpleEventDispatcher.doDispatch envStopper ([0] ++ 1 :: [2]) evStoppable
      = ({ evStoppable with stopped := true }, [0] ++ [1], none) ∧
    ((SimpleEventDispatcher.doDispatch envStopper ([0] ++ 1 :: [2])
        evStoppable).1).stopped = true := by
  have h := claim_C3_stop_check envStopper
    (by intro l ev; simp [envStopper]; split <;> rfl)
    evStoppable (by decide)
  have h1 := (claim_C3_stop_check envStopper
    (by intro l ev; simp [envStopper]; split <;> rfl)
    { evStoppable with stopped := true } (by decide)).1 (by decide) sampleReg (some "x")
  have h2 := h.2 [0] 1 [2] evStoppable { evStoppable with stopped := true } [0]
    (by decide) (by decide) (by decide) (by decide)
  exact ⟨h1, h2.1, h2.2⟩

/-! ## C1: listener-failure isolation -/

/-- Counterexample to C1 as stated: in `SimpleEventDispatcher`, whose
dispatch loop has no try/catch, listener 0 (priority 5) throws and the
exception escapes `dispatch`; listener 1 (priority 0) is never invoked. -/
theorem claim_C1_counterexample :
    (SimpleEventDispatcher.dispatch twoReg envThrow0 ev0 (some "x")).escaped
      = some (.listenerError 0) ∧
    (SimpleEventDispatcher.dispatch twoReg envThrow0 ev0 (some "x")).invoked = [0] := by
  decide

/-- The Browser dispatch loop is the same function as the Node one (their
source bodies are identical). -/
theorem browserLoop_eq_nodeLoop (env : Env) (b : Bool) :
    ∀ (ls : List Nat) (ev : Event),
      BrowserEventDispatcher.dispatchLoop env b ls ev
        = NodeEventDispatcher.dispatchLoop env b ls ev := by
  intro ls
  induction ls with
  | nil => intro ev; rfl
  | cons l rest ih =>
    intro ev
    simp [BrowserEventDispatcher.dispatchLoop, NodeEventDispatcher.dispatchLoop, ih]

/-- The Browser pairs loop is the same function as the Node one. -/
theorem browserLoopPairs_eq_nodeLoopPairs (b : Bool) :
    ∀ (m : List (String × List Nat)) (ev : Event),
      BrowserEventDispatcher.dispatchLoopPairs b m ev
        = NodeEventDispatcher.dispatchLoopPairs b m ev := by
  intro m
  induction m with
  | nil => intro ev; rfl
  | cons q rest ih =>
    intro ev
    simp [BrowserEventDispatcher.dispatchLoopPairs, NodeEventDispatcher.dispatchLoopPairs, ih]

/-- `BrowserEventDispatcher.dispatch` computes the same result as
`NodeEventDispatcher.dispatch`: the two methods differ only in which native
bus they mirror to, and neither mirror reaches a registered listener. -/
theorem browserDispatch_eq_nodeDispatch (d : SimpleEventDispatcher) (env : Env)
    (ev : Event) (eventName : Option String) :
    BrowserEventDispatcher.dispatch d env ev eventName
      = NodeEventDispatcher.dispatch d env ev eventName := by
  simp only [BrowserEventDispatcher.dispatch, NodeEventDispatcher.dispatch]
  rcases SimpleEventDispatcher.getListeners d (some (eventName.getD ev.ctorName))
    with ⟨d', res⟩
  cases res with
  | single ls => simp [browserLoop_eq_nodeLoop]
  | all m => simp [browserLoopPairs_eq_nodeLoopPairs]
  | diverge => rfl

/-- On a non-stop-capable event the Node loop invokes every listener in the
given order — throwing listeners included — and reports exactly the
listeners whose call threw, in order, one `console.error` each. -/
theorem nodeLoop_full_run (env : Env) (htd : ThrowDeterministic env) :
    ∀ (ls : List Nat) (ev : Event),
      (NodeEventDispatcher.dispatchLoop env false ls ev).2.1 = ls ∧
      (NodeEventDispatcher.dispatchLoop env false ls ev).2.2
        = (ls.filter (fun l => (env l ev).2)).map JsError.listenerError := by
  intro ls
  induction ls with
  | nil => intro ev; exact ⟨rfl, rfl⟩
  | cons l rest ih =>
    intro ev
    rcases henv : env l ev with ⟨ev', threw⟩
    have hrest := ih ev'
    have hfc : rest.filter (fun x => (env x ev').2) = rest.filter (fun x => (env x ev).2) :=
      List.filter_congr (fun x _ => by rw [htd x ev' ev])
    have hthrew : (env l ev).2 = threw := by rw [henv]
    constructor
    · simp [NodeEventDispatcher.dispatchLoop, henv, hrest.1]
    · cases hb : threw with
      | true =>
        simp [NodeEventDispatcher.dispatchLoop, henv, hrest.2, hfc, hthrew, hb,
          List.filter_cons]
      | false =>
        simp [NodeEventDispatcher.dispatchLoop, henv, hrest.2, hfc, hthrew, hb,
          List.filter_cons]

/-- For a nonempty name, `getListeners` takes the single-name branch. -/
theorem getListeners_some_ne (d : SimpleEventDispatcher) {s : String} (hs : s ≠ "") :
    SimpleEventDispatcher.getListeners d (some s)
      = ((SimpleEventDispatcher.getListenersSingle d s).1,
         .single (SimpleEventDispatcher.getListenersSingle d s).2) := by
  simp [SimpleEventDispatcher.getListeners, optTruthy, hs]

/-- For a nonempty name, `NodeEventDispatcher.dispatch` reduces to the
early return or to the single-name loop over the lazily sorted sequence. -/
theorem nodeDispatch_some_ne (d : SimpleEventDispatcher) (env : Env) (ev : Event)
    {s : String} (hs : s ≠ "") :
    NodeEventDispatcher.dispatch d env ev (some s)
      = if SimpleEventDispatcher.hasListeners d (some s) then
          ⟨(SimpleEventDispatcher.getListenersSingle d s).1,
           (NodeEventDispatcher.dispatchLoop env ev.stoppable
              (SimpleEventDispatcher.getListenersSingle d s).2 ev).1,
           (NodeEventDispatcher.dispatchLoop env ev.stoppable
              (SimpleEventDispatcher.getListenersSingle d s).2 ev).2.1,
           (NodeEventDispatcher.dispatchLoop env ev.stoppable
              (SimpleEventDispatcher.getListenersSingle d s).2 ev).2.2, none⟩
        else ⟨d, ev, [], [], none⟩ := by
  simp only [NodeEventDispatcher.dispatch, Option.getD_some, getListeners_some_ne d hs]
  by_cases hhas : SimpleEventDispatcher.hasListeners d (some s) = true
  · simp [hhas]
  · simp [hhas]

/-- C1 amended: in `NodeEventDispatcher` and `BrowserEventDispatcher` a
listener that throws synchronously is caught: the exception does not escape
`dispatch`, every subsequent listener in the sorted sequence is still
invoked during that same dispatch (here stated for a non-stop-capable
event, so that no stop-flag break interferes), and the diagnostic sink is
invoked exactly once per failing listener, in order.  In
`SimpleEventDispatcher` the loop has no try/catch, so the exception escapes
and aborts the loop (see the counterexample). -/
theorem claim_C1_node_browser_isolation (d : SimpleEventDispatcher) (env : Env)
    (ev : Event) (s : String) (hs : s ≠ "") (hts : ev.stoppable = false)
    (htd : ThrowDeterministic env) :
    (NodeEventDispatcher.dispatch d env ev (some s)).escaped = none ∧
    (BrowserEventDispatcher.dispatch d env ev (some s)).escaped = none ∧
    (SimpleEventDispatcher.hasListeners d (some s) = true →
      (NodeEventDispatcher.dispatch d env ev (some s)).invoked
        = (SimpleEventDispatcher.getListenersSingle d s).2 ∧
      (NodeEventDispatcher.dispatch d env ev (some s)).reported
        = (((SimpleEventDispatcher.getListenersSingle d s).2).filter
            (fun l => (env l ev).2)).map JsError.listenerError ∧
      (BrowserEventDispatcher.dispatch d env ev (some s)).invoked
        = (SimpleEventDispatcher.getListenersSingle d s).2 ∧
      (BrowserEventDispatcher.dispatch d env ev (some s)).reported
        = (((SimpleEventDispatcher.getListenersSingle d s).2).filter
            (fun l => (env l ev).2)).map JsError.listenerError) := by
  have hloop := nodeLoop_full_run env htd (SimpleEventDispatcher.getListenersSingle d s).2 ev
  have hbn := browserDispatch_eq_nodeDispatch d env ev (some s)
  rw [hbn, nodeDispatch_some_ne d env ev hs, hts]
  by_cases hhas : SimpleEventDispatcher.hasListeners d (some s) = true
  · simp [hhas, hloop.1, hloop.2]
  · simp [hhas]

/-- Witness for the amended C1 on two listeners under `"x"` where the
higher-priority listener (id 0) throws: Node and Browser dispatch return
normally, still invoke listener 1, and report the failure exactly once. -/
theorem claim_C1_witness :
    (NodeEventDispatcher.dispatch twoReg envThrow0 ev0 (some "x")).escaped = none ∧
    (BrowserEventDispatcher.dispatch twoReg envThrow0 ev0 (some "x")).escaped = none ∧
    (NodeEventDispatcher.dispatch twoReg envThrow0 ev0 (some "x")).invoked = [0, 1] ∧
    (NodeEventDispatcher.dispatch twoReg envThrow0 ev0 (some "x")).reported
      = [.listenerError 0] := by
  have h := claim_C1_node_browser_isolation twoReg envThrow0 ev0 "x"
    (by decide) (by decide) (fun l e₁ e₂ => rfl)
  have hy := h.2.2 (by decide)
  refine ⟨h.1, h.2.1, ?_, ?_⟩
  · rw [hy.1]
    decide
  · rw [hy.2.1]
    decide

/-! ## C4: dispatch returns its event -/

/-- Under an identity-preserving environment, the event threaded through the
Simple dispatch loop keeps its reference identity — throw or no throw. -/
theorem doDispatch_eventId (env : Env) (hid : EventIdPreserving env) :
    ∀ (ls : List Nat) (ev : Event),
      ((SimpleEventDispatcher.doDispatch env ls ev).1).eventId = ev.eventId := by
  intro ls
  induction ls with
  | nil => intro ev; rfl
  | cons l rest ih =>
    intro ev
    by_cases hstop : ev.stoppable = true ∧ ev.stopped = true
    · simp [SimpleEventDispatcher.doDispatch, hstop.1, hstop.2]
    · rcases henv : env l ev with ⟨ev', threw⟩
      have hev' : ev'.eventId = ev.eventId := by
        have := hid l ev
        rw [henv] at this
        exact this
      cases threw with
      | true => simp [SimpleEventDispatcher.doDispatch, hstop, henv, hev']
      | false => simp [SimpleEventDispatcher.doDispatch, hstop, henv, ih ev', hev']

/-- The same for the Node (and thus Browser) loop. -/
theorem nodeLoop_eventId (env : Env) (hid : EventIdPreserving env) (b : Bool) :
    ∀ (ls : List Nat) (ev : Event),
      ((NodeEventDispatcher.dispatchLoop env b ls ev).1).eventId = ev.eventId := by
  intro ls
  induction ls with
  | nil => intro ev; rfl
  | cons l rest ih =>
    intro ev
    by_cases hstop : b = true ∧ ev.stopped = true
    · simp [NodeEventDispatcher.dispatchLoop, hstop.1, hstop.2]
    · rcases henv : env l ev with ⟨ev', threw⟩
      have hev' : ev'.eventId = ev.eventId := by
        have := hid l ev
        rw [henv] at this
        exact this
      simp [NodeEventDispatcher.dispatchLoop, hstop, henv, ih ev', hev']

/-- When no listener throws, the Simple loop raises nothing. -/
theorem doDispatch_noThrow (env : Env) (hnt : NeverThrows env) :
    ∀ (ls : List Nat) (ev : Event),
      (SimpleEventDispatcher.doDispatch env ls ev).2.2 = none := by
  intro ls
  induction ls with
  | nil => intro ev; rfl
  | cons l rest ih =>
    intro ev
    by_cases hstop : ev.stoppable = true ∧ ev.stopped = true
    · simp [SimpleEventDispatcher.doDispatch, hstop.1, hstop.2]
    · rcases henv : env l ev with ⟨ev', threw⟩
      have hf : threw = false := by
        have := hnt l ev
        rw [henv] at this
        exact this
      subst hf
      simp [SimpleEventDispatcher.doDispatch, hstop, henv, ih ev']

/-- For a nonempty resolved name, `NodeEventDispatcher.dispatch` reduces to
the early return or to the single-name loop. -/
theorem nodeDispatch_resolved (d : SimpleEventDispatcher) (env : Env) (ev : Event)
    (eventName : Option String) (hs : eventName.getD ev.ctorName ≠ "") :
    NodeEventDispatcher.dispatch d env ev eventName
      = if SimpleEventDispatcher.hasListeners d (some (eventName.getD ev.ctorName)) then
          ⟨(SimpleEventDispatcher.getListenersSingle d (eventName.getD ev.ctorName)).1,
           (NodeEventDispatcher.dispatchLoop env ev.stoppable
              (SimpleEventDispatcher.getListenersSingle d
                (eventName.getD ev.ctorName)).2 ev).1,
           (NodeEventDispatcher.dispatchLoop env ev.stoppable
              (SimpleEventDispatcher.getListenersSingle d
                (eventName.getD ev.ctorName)).2 ev).2.1,
           (NodeEventDispatcher.dispatchLoop env ev.stoppable
              (SimpleEventDispatcher.getListenersSingle d
                (eventName.getD ev.ctorName)).2 ev).2.2, none⟩
        else ⟨d, ev, [], [], none⟩ := by
  simp only [NodeEventDispatcher.dispatch, getListeners_some_ne d hs]
  by_cases hhas : SimpleEventDispatcher.hasListeners d
      (some (eventName.getD ev.ctorName)) = true
  · simp [hhas]
  · simp [hhas]

/-- For a nonempty resolved name, `SimpleEventDispatcher.dispatch` reduces to
the early return or to the single-name `doDispatch`. -/
theorem simpleDispatch_resolved (d : SimpleEventDispatcher) (env : Env) (ev : Event)
    (eventName : Option String) (hs : eventName.getD ev.ctorName ≠ "") :
    SimpleEventDispatcher.dispatch d env ev eventName
      = if SimpleEventDispatcher.hasListeners d (some (eventName.getD ev.ctorName)) then
          ⟨(SimpleEventDispatcher.getListenersSingle d (eventName.getD ev.ctorName)).1,
           (SimpleEventDispatcher.doDispatch env
              (SimpleEventDispatcher.getListenersSingle d
                (eventName.getD ev.ctorName)).2 ev).1,
           (SimpleEventDispatcher.doDispatch env
              (SimpleEventDispatcher.getListenersSingle d
                (eventName.getD ev.ctorName)).2 ev).2.1,
           (SimpleEventDispatcher.doDispatch env
              (SimpleEventDispatcher.getListenersSingle d
                (eventName.getD ev.ctorName)).2 ev).2.2⟩
        else ⟨d, ev, [], none⟩ := by
  simp only [SimpleEventDispatcher.dispatch, getListeners_some_ne d hs,
    SimpleEventDispatcher.doDispatchAny]
  by_cases hhas : SimpleEventDispatcher.hasListeners d
      (some (eventName.getD ev.ctorName)) = true
  · simp [hhas]
  · simp [hhas]

/-- Counterexample to C4 as stated: in `SimpleEventDispatcher`, a dispatch
whose only listener throws does not return at all — the exception escapes —
so it does not return the event reference in the "listeners throw" case. -/
theorem claim_C4_counterexample :
    (SimpleEventDispatcher.dispatch
      (SimpleEventDispatcher.addListener SimpleEventDispatcher.empty "y" 4 0)
      envThrow4 ev0 (some "y")).escaped = some (.listenerError 4) := by decide

/-- C4 amended: with listeners that may mutate the event but never its
reference identity, and a nonempty resolved event name, Node and Browser
`dispatch` return normally with the identical event reference in all cases
— no listeners, normal listeners, or throwing listeners.
`SimpleEventDispatcher.dispatch` returns the identical reference whenever it
returns at all, and it is guaranteed to return when no listener throws; a
synchronously throwing listener makes it raise instead of returning (see
the counterexample). -/
theorem claim_C4_dispatch_returns_event (d : SimpleEventDispatcher) (env : Env)
    (ev : Event) (eventName : Option String) (hid : EventIdPreserving env)
    (hs : eventName.getD ev.ctorName ≠ "") :
    (NodeEventDispatcher.dispatch d env ev eventName).escaped = none ∧
    ((NodeEventDispatcher.dispatch d env ev eventName).event).eventId = ev.eventId ∧
    (BrowserEventDispatcher.dispatch d env ev eventName).escaped = none ∧
    ((BrowserEventDispatcher.dispatch d env ev eventName).event).eventId = ev.eventId ∧
    ((SimpleEventDispatcher.dispatch d env ev eventName).escaped = none →
      ((SimpleEventDispatcher.dispatch d env ev eventName).event).eventId = ev.eventId) ∧
    (NeverThrows env →
      (SimpleEventDispatcher.dispatch d env ev eventName).escaped = none) := by
  have hbn := browserDispatch_eq_nodeDispatch d env ev eventName
  rw [hbn, nodeDispatch_resolved d env ev eventName hs,
    simpleDispatch_resolved d env ev eventName hs]
  by_cases hhas : SimpleEventDispatcher.hasListeners d
      (some (eventName.getD ev.ctorName)) = true
  · rw [if_pos hhas, if_pos hhas]
    refine ⟨rfl, nodeLoop_eventId env hid ev.stoppable _ ev, rfl,
      nodeLoop_eventId env hid ev.stoppable _ ev, ?_, ?_⟩
    · intro _
      exact doDispatch_eventId env hid _ ev
    · intro hnt
      exact doDispatch_noThrow env hnt _ ev
  · simp [hhas]

/-- Witness for the amended C4 at concrete inputs, including a throwing
listener for the Node side. -/
theorem claim_C4_witness :
    (NodeEventDispatcher.dispatch twoReg envThrow0 ev0 (some "x")).escaped = none ∧
    ((NodeEventDispatcher.dispatch twoReg envThrow0 ev0 (some "x")).event).eventId
      = ev0.eventId ∧
    ((SimpleEventDispatcher.dispatch twoReg envPlain ev0 (some "x")).escaped = none →
      ((SimpleEventDispatcher.dispatch twoReg envPlain ev0 (some "x")).event).eventId
        = ev0.eventId) ∧
    (NeverThrows envPlain →
      (SimpleEventDispatcher.dispatch twoReg envPlain ev0 (some "x")).escaped = none) := by
  have h1 := claim_C4_dispatch_returns_event twoReg envThrow0 ev0 (some "x")
    (fun l e => rfl) (by decide)
  have h2 := claim_C4_dispatch_returns_event twoReg envPlain ev0 (some "x")
    (fun l e => rfl) (by decide)
  exact ⟨h1.1, h1.2.1, h2.2.2.2.2.1, h2.2.2.2.2.2⟩

/-! ## C2: priority ordering with stable ties -/

theorem mem_insertDesc (e x : Entry) : ∀ (l : List Entry),
    x ∈ insertDesc e l ↔ x = e ∨ x ∈ l := by
  intro l
  induction l with
  | nil => simp [insertDesc]
  | cons y ys ih =>
    by_cases hle : e.priority ≤ y.priority
    · simp only [insertDesc, if_pos hle, List.mem_cons, ih]
      tauto
    · simp only [insertDesc, if_neg hle, List.mem_cons]

theorem insertDesc_perm (e : Entry) : ∀ (l : List Entry),
    List.Perm (insertDesc e l) (e :: l) := by
  intro l
  induction l with
  | nil => simp [insertDesc]
  | cons y ys ih =>
    by_cases hle : e.priority ≤ y.priority
    · simp only [insertDesc, if_pos hle]
      exact (ih.cons y).trans (List.Perm.swap e y ys)
    · simp [insertDesc, hle]

theorem insertDesc_pairwise (e : Entry) : ∀ (l : List Entry),
    l.Pairwise (fun a b => b.priority ≤ a.priority) →
    (insertDesc e l).Pairwise (fun a b => b.priority ≤ a.priority) := by
  intro l
  induction l with
  | nil => intro _; simp [insertDesc]
  | cons y ys ih =>
    intro h
    rw [List.pairwise_cons] at h
    by_cases hle : e.priority ≤ y.priority
    · simp only [insertDesc, if_pos hle]
      rw [List.pairwise_cons]
      constructor
      · intro z hz
        rcases (mem_insertDesc e z ys).1 hz with hz | hz
        · subst hz; exact hle
        · exact h.1 z hz
      · exact ih h.2
    · push_neg at hle
      simp only [insertDesc, if_neg (not_le.2 hle)]
      rw [List.pairwise_cons]
      constructor
      · intro z hz
        rcases List.mem_cons.1 hz with hz | hz
        · subst hz; exact le_of_lt hle
        · exact le_trans (h.1 z hz) (le_of_lt hle)
      · rw [List.pairwise_cons]
        exact h

theorem insertDesc_filter (p : Int) (e : Entry) : ∀ (l : List Entry),
    l.Pairwise (fun a b => b.priority ≤ a.priority) →
    (insertDesc e l).filter (fun x => x.priority = p)
      = l.filter (fun x => x.priority = p)
        ++ (if e.priority = p then [e] else []) := by
  intro l
  induction l with
  | nil =>
    intro _
    by_cases hep : e.priority = p <;> simp [insertDesc, List.filter_cons, hep]
  | cons y ys ih =>
    intro h
    rw [List.pairwise_cons] at h
    by_cases hle : e.priority ≤ y.priority
    · simp only [insertDesc, if_pos hle, List.filter_cons, ih h.2]
      by_cases hyp : y.priority = p <;> simp [hyp]
    · push_neg at hle
      have hnil : ∀ he : e.priority = p, (y :: ys).filter (fun x => x.priority = p) = [] := by
        intro he
        rw [List.filter_eq_nil_iff]
        intro z hz
        have hzy : z.priority ≤ y.priority := by
          rcases List.mem_cons.1 hz with hz | hz
          · subst hz; exact le_refl _
          · exact h.1 z hz
        have hlt : z.priority < p := lt_of_le_of_lt hzy (he ▸ hle)
        simp only [decide_eq_true_eq]
        exact ne_of_lt hlt
      simp only [insertDesc, if_neg (not_le.2 hle)]
      rw [List.filter_cons]
      by_cases hep : e.priority = p
      · simp [hep, hnil hep]
      · simp [hep]

theorem foldl_insertDesc_pairwise : ∀ (l acc : List Entry),
    acc.Pairwise (fun a b => b.priority ≤ a.priority) →
    (l.foldl (fun a e => insertDesc e a) acc).Pairwise
      (fun a b => b.priority ≤ a.priority) := by
  intro l
  induction l with
  | nil => intro acc h; exact h
  | cons e rest ih =>
    intro acc h
    exact ih (insertDesc e acc) (insertDesc_pairwise e acc h)

theorem foldl_insertDesc_perm : ∀ (l acc : List Entry),
    List.Perm (l.foldl (fun a e => insertDesc e a) acc) (acc ++ l) := by
  intro l
  induction l with
  | nil => intro acc; simp
  | cons e rest ih =>
    intro acc
    have h1 := ih (insertDesc e acc)
    have h2 : List.Perm (insertDesc e acc ++ rest) ((e :: acc) ++ rest) :=
      (insertDesc_perm e acc).append_right rest
    have h3 : List.Perm ((e :: acc) ++ rest) (acc ++ e :: rest) := by
      rw [List.cons_append]
      exact (List.perm_middle).symm
    exact (h1.trans h2).trans h3

theorem foldl_insertDesc_filter (p : Int) : ∀ (l acc : List Entry),
    acc.Pairwise (fun a b => b.priority ≤ a.priority) →
    (l.foldl (fun a e => insertDesc e a) acc).filter (fun x => x.priority = p)
      = acc.filter (fun x => x.priority = p) ++ l.filter (fun x => x.priority = p) := by
  intro l
  induction l with
  | nil => intro acc _; simp
  | cons e rest ih =>
    intro acc h
    have h1 := ih (insertDesc e acc) (insertDesc_pairwise e acc h)
    rw [List.foldl_cons, h1, insertDesc_filter p e acc h, List.filter_cons,
      List.append_assoc]
    by_cases hep : e.priority = p <;> simp [hep]

/-- `sortDesc` permutes its input. -/
theorem sortDesc_perm (l : List Entry) : List.Perm (sortDesc l) l := by
  have := foldl_insertDesc_perm l []
  simpa [sortDesc] using this

/-- `sortDesc` output is descending by priority. -/
theorem sortDesc_pairwise (l : List Entry) :
    (sortDesc l).Pairwise (fun a b => b.priority ≤ a.priority) :=
  foldl_insertDesc_pairwise l [] (by simp)

/-- Stability: within each priority class, `sortDesc` preserves the input
(registration) order. -/
theorem sortDesc_filter (l : List Entry) (p : Int) :
    (sortDesc l).filter (fun x => x.priority = p) = l.filter (fun x => x.priority = p) := by
  have := foldl_insertDesc_filter p l [] (by simp)
  simpa [sortDesc] using this

/-- Under a never-throwing environment and a non-stop-capable event, the
Simple dispatch loop invokes every listener in the sequence, in order. -/
theorem doDispatch_full_run (env : Env) (hnt : NeverThrows env)
    (hsp : StoppablePreserving env) :
    ∀ (ls : List Nat) (ev : Event), ev.stoppable = false →
      (SimpleEventDispatcher.doDispatch env ls ev).2.1 = ls := by
  intro ls
  induction ls with
  | nil => intro ev _; rfl
  | cons l rest ih =>
    intro ev hts
    have hstop : ¬ (ev.stoppable = true ∧ ev.stopped = true) := by
      rintro ⟨h1, -⟩
      rw [hts] at h1
      cases h1
    rcases henv : env l ev with ⟨ev', threw⟩
    have hf : threw = false := by
      have := hnt l ev
      rw [henv] at this
      exact this
    subst hf
    have hts' : ev'.stoppable = false := by
      have := hsp l ev
      rw [henv] at this
      rw [this]
      exact hts
    simp [SimpleEventDispatcher.doDispatch, hstop, henv, ih ev' hts']

/-- Folding `addListener` over registrations on a single-name registry
appends the corresponding entries in registration order and leaves the name
marked dirty. -/
theorem regFold_from (s : String) : ∀ (regs : List (Nat × Int)) (l : List Entry),
    regs.foldl (fun d r => SimpleEventDispatcher.addListener d s r.1 r.2)
        ⟨[(s, l)], [(s, false)]⟩
      = ⟨[(s, l ++ regs.map (fun r => ⟨r.1, r.2⟩))], [(s, false)]⟩ := by
  intro regs
  induction regs with
  | nil => intro l; simp
  | cons r rest ih =>
    intro l
    rw [List.foldl_cons]
    rw [show SimpleEventDispatcher.addListener ⟨[(s, l)], [(s, false)]⟩ s r.1 r.2
        = (⟨[(s, l ++ [⟨r.1, r.2⟩])], [(s, false)]⟩ : SimpleEventDispatcher) by
      simp [addListener_eq, alistSet, alistGet]]
    refine (ih (l ++ [Entry.mk r.1 r.2])).trans ?_
    simp

/-- The first registration on the empty registry creates the singleton
per-name state. -/
theorem addListener_empty (s : String) (b : Nat) (p : Int) :
    SimpleEventDispatcher.addListener SimpleEventDispatcher.empty s b p
      = ⟨[(s, [⟨b, p⟩])], [(s, false)]⟩ := by
  simp [addListener_eq, SimpleEventDispatcher.empty, alistSet, alistGet]

/-- C2: for every event name and every sequence of `addListener` calls on
that name (nonempty name; listeners that neither throw nor make the event
stop-capable, so that the whole sequence runs), dispatch invokes the
registered listeners exactly in the order of the stable descending sort of
the registrations: the invocation sequence is a permutation of the
registrations that is descending in priority, and within each priority
class it preserves registration order. -/
theorem claim_C2_priority_order (s : String) (regs : List (Nat × Int)) (env : Env)
    (ev : Event) (hs : s ≠ "") (hnt : NeverThrows env) (hsp : StoppablePreserving env)
    (hts : ev.stoppable = false) :
    (SimpleEventDispatcher.dispatch
        (regs.foldl (fun d r => SimpleEventDispatcher.addListener d s r.1 r.2)
          SimpleEventDispatcher.empty)
        env ev (some s)).invoked
      = (sortDesc (regs.map (fun r => ⟨r.1, r.2⟩))).map Entry.listener ∧
    List.Perm (sortDesc (regs.map (fun r => ⟨r.1, r.2⟩)))
      (regs.map (fun r => ⟨r.1, r.2⟩)) ∧
    (sortDesc (regs.map (fun r => ⟨r.1, r.2⟩))).Pairwise
      (fun a b => b.priority ≤ a.priority) ∧
    (∀ p : Int, (sortDesc (regs.map (fun r => ⟨r.1, r.2⟩))).filter
        (fun x => x.priority = p)
      = (regs.map (fun r => ⟨r.1, r.2⟩)).filter (fun x => x.priority = p)) := by
  refine ⟨?_, sortDesc_perm _, sortDesc_pairwise _, fun p => sortDesc_filter _ p⟩
  cases regs with
  | nil =>
    simp [SimpleEventDispatcher.dispatch, SimpleEventDispatcher.empty,
      SimpleEventDispatcher.hasListeners, optTruthy, hs, alistHas, alistGet, sortDesc]
  | cons r rest =>
    rw [List.foldl_cons, addListener_empty s r.1 r.2, regFold_from s rest [⟨r.1, r.2⟩]]
    have hentries : (⟨r.1, r.2⟩ : Entry) :: rest.map (fun r => (⟨r.1, r.2⟩ : Entry))
        = (r :: rest).map (fun r => (⟨r.1, r.2⟩ : Entry)) := by simp
    set entries := (r :: rest).map (fun r => (⟨r.1, r.2⟩ : Entry)) with hdef
    rw [show ([⟨r.1, r.2⟩] : List Entry) ++ rest.map (fun r => ⟨r.1, r.2⟩) = entries by
      simp [hdef]]
    have hd : SimpleEventDispatcher.dispatch ⟨[(s, entries)], [(s, false)]⟩ env ev (some s)
        = ⟨⟨[(s, sortDesc entries)], [(s, true)]⟩,
           (SimpleEventDispatcher.doDispatch env
             ((sortDesc entries).map Entry.listener) ev).1,
           (SimpleEventDispatcher.doDispatch env
             ((sortDesc entries).map Entry.listener) ev).2.1,
           (SimpleEventDispatcher.doDispatch env
             ((sortDesc entries).map Entry.listener) ev).2.2⟩ := by
      have hhas : SimpleEventDispatcher.hasListeners ⟨[(s, entries)], [(s, false)]⟩
          (some s) = true := by
        simp [SimpleEventDispatcher.hasListeners, optTruthy, hs, alistHas, alistGet, hdef]
      have hsingle : SimpleEventDispatcher.getListenersSingle
          ⟨[(s, entries)], [(s, false)]⟩ s
          = (⟨[(s, sortDesc entries)], [(s, true)]⟩,
             (sortDesc entries).map Entry.listener) := by
        simp [SimpleEventDispatcher.getListenersSingle, SimpleEventDispatcher.sortListeners,
          alistHas, alistGet, alistSet]
      rw [simpleDispatch_resolved _ env ev (some s) hs]
      simp only [Option.getD_some]
      rw [if_pos hhas, hsingle]
    rw [hd]
    exact doDispatch_full_run env hnt hsp ((sortDesc entries).map Entry.listener) ev hts

/-- Witness for C2 on the spec's example: three listeners registered with
priorities 0, 10, 5 are invoked in the order `[10, 5, 0]`, i.e. ids
`[1, 2, 0]`. -/
theorem claim_C2_witness :
    (SimpleEventDispatcher.dispatch
        ([((0 : Nat), (0 : Int)), (1, 10), (2, 5)].foldl
          (fun d r => SimpleEventDispatcher.addListener d "x" r.1 r.2)
          SimpleEventDispatcher.empty)
        envPlain ev0 (some "x")).invoked
      = (sortDesc ([((0 : Nat), (0 : Int)), (1, 10), (2, 5)].map
          (fun r => (⟨r.1, r.2⟩ : Entry)))).map Entry.listener ∧
    (sortDesc ([((0 : Nat), (0 : Int)), (1, 10), (2, 5)].map
        (fun r => (⟨r.1, r.2⟩ : Entry)))).map Entry.listener = [1, 2, 0] := by
  constructor
  · exact (claim_C2_priority_order "x" [(0, 0), (1, 10), (2, 5)] envPlain ev0
      (by decide) (fun l e => rfl) (fun l e => rfl) (by decide)).1
  · decide

/-! ## C6: subscriber symmetry -/

theorem alistGet_mem {α β : Type} [DecidableEq α] : ∀ (m : List (α × β)) (k : α) (v : β),
    alistGet m k = some v → (k, v) ∈ m := by
  intro m
  induction m with
  | nil => intro k v h; simp [alistGet] at h
  | cons p rest ih =>
    intro k v h
    obtain ⟨k₀, w⟩ := p
    by_cases h0 : k₀ = k
    · subst h0
      have hw : w = v := by simpa [alistGet] using h
      subst hw
      exact List.mem_cons_self _ _
    · have h' : alistGet rest k = some v := by simpa [alistGet, h0] using h
      exact List.mem_cons_of_mem _ (ih k v h')

theorem mem_alistSet {α β : Type} [DecidableEq α] : ∀ (m : List (α × β)) (k : α) (v : β)
    (q : α × β), q ∈ alistSet m k v → q ∈ m ∨ q = (k, v) := by
  intro m
  induction m with
  | nil =>
    intro k v q h
    right
    simpa [alistSet] using h
  | cons p rest ih =>
    intro k v q h
    obtain ⟨k₀, w⟩ := p
    by_cases h0 : k₀ = k
    · subst h0
      rw [show alistSet ((k₀, w) :: rest) k₀ v = (k₀, v) :: rest by simp [alistSet]] at h
      rcases List.mem_cons.1 h with h | h
      · right; exact h
      · left; exact List.mem_cons_of_mem _ h
    · rw [show alistSet ((k₀, w) :: rest) k v = (k₀, w) :: alistSet rest k v by
        simp [alistSet, h0]] at h
      rcases List.mem_cons.1 h with h | h
      · left; rw [h]; exact List.mem_cons_self _ _
      · rcases ih k v q h with h | h
        · left; exact List.mem_cons_of_mem _ h
        · right; exact h

/-- `addListener` projected to the `listeners` map is `addL`. -/
theorem addListener_listeners (d : SimpleEventDispatcher) (n : String) (b : Nat) (p : Int) :
    (SimpleEventDispatcher.addListener d n b p).listeners = addL d.listeners n b p := by
  rw [addListener_eq]
  rfl

/-- `removeL` on a present key reduces to the splice-then-branch form. -/
theorem removeL_of_get (m : List (String × List Entry)) (n : String) (b : Nat)
    (ls : List Entry) (h : alistGet m n = some ls) :
    removeL m n b
      = if (SimpleEventDispatcher.spliceFirst (fun i => i.listener = b) ls).length = 0
        then alistDelete m n
        else alistSet m n
          (SimpleEventDispatcher.spliceFirst (fun i => i.listener = b) ls) := by
  simp [removeL, alistHas, h]

/-- `removeListener` projected to the `listeners` map is `removeL`. -/
theorem removeListener_listeners (d : SimpleEventDispatcher) (n : String) (b : Nat) :
    (SimpleEventDispatcher.removeListener d n b).listeners = removeL d.listeners n b := by
  cases h : alistGet d.listeners n with
  | none => simp [SimpleEventDispatcher.removeListener, removeL, alistHas, h]
  | some ls =>
    rw [removeL_of_get _ _ _ _ h]
    by_cases hlen : (SimpleEventDispatcher.spliceFirst (fun i => i.listener = b) ls).length = 0
    · simp [SimpleEventDispatcher.removeListener, alistHas, h, hlen]
    · simp [SimpleEventDispatcher.removeListener, alistHas, h, hlen]

/-- Cancellation: adding a fresh callback under a name and removing it again
restores the `listeners` map exactly (nonempty stored lists assumed, as in
every reachable state). -/
theorem removeL_addL_cancel (m : List (String × List Entry)) (n : String) (b : Nat) (p : Int)
    (hfresh : ∀ e ∈ (alistGet m n).getD [], e.listener ≠ b)
    (hwf : ∀ q ∈ m, q.2 ≠ []) :
    removeL (addL m n b p) n b = m := by
  cases hget : alistGet m n with
  | none =>
    have haddl : addL m n b p = alistSet m n [⟨b, p⟩] := by
      simp [addL, hget]
    rw [haddl]
    rw [removeL_of_get (alistSet m n [Entry.mk b p]) n b [Entry.mk b p]
      (alistGet_set_self _ _ _)]
    rw [if_pos (by simp [SimpleEventDispatcher.spliceFirst])]
    exact alistDelete_set_self_of_not_mem m _ hget
  | some ls =>
    have hne : ls ≠ [] := hwf (n, ls) (alistGet_mem m n ls hget)
    have haddl : addL m n b p = alistSet m n (ls ++ [⟨b, p⟩]) := by
      simp [addL, hget]
    rw [haddl]
    rw [removeL_of_get (alistSet m n (ls ++ [Entry.mk b p])) n b (ls ++ [Entry.mk b p])
      (alistGet_set_self _ _ _)]
    have hsp : SimpleEventDispatcher.spliceFirst (fun i => i.listener = b)
        (ls ++ [⟨b, p⟩]) = ls := by
      apply spliceFirst_append_last
      · intro x hx
        have := hfresh x (by rw [hget]; exact hx)
        simpa using this
      · simp
    rw [hsp]
    rw [if_neg (by simpa [List.length_eq_zero] using hne)]
    rw [alistSet_set_self, alistSet_get_self _ hget]

/-- `addL` on one name does not change the entries stored under another. -/
theorem alistGet_addL_ne (m : List (String × List Entry)) {n n' : String} (b : Nat)
    (p : Int) (hne : n' ≠ n) : alistGet (addL m n' b p) n = alistGet m n := by
  unfold addL
  exact alistGet_set_ne m _ hne

/-- `addL` and `removeL` on distinct names commute on the `listeners` map. -/
theorem removeL_addL_comm (m : List (String × List Entry)) {n n' : String}
    (b b' : Nat) (p' : Int) (hne : n ≠ n') :
    removeL (addL m n' b' p') n b = addL (removeL m n b) n' b' p' := by
  cases hget : alistGet m n with
  | none =>
    have h1 : removeL m n b = m := by simp [removeL, alistHas, hget]
    have h2 : alistGet (addL m n' b' p') n = none := by
      rw [alistGet_addL_ne m b' p' (Ne.symm hne)]
      exact hget
    have h3 : removeL (addL m n' b' p') n b = addL m n' b' p' := by
      simp [removeL, alistHas, h2]
    rw [h1, h3]
  | some ls =>
    have hget' : alistGet (addL m n' b' p') n = some ls := by
      rw [alistGet_addL_ne m b' p' (Ne.symm hne)]
      exact hget
    rw [removeL_of_get _ n b ls hget', removeL_of_get m n b ls hget]
    by_cases hlen : (SimpleEventDispatcher.spliceFirst (fun i => i.listener = b) ls).length = 0
    · rw [if_pos hlen, if_pos hlen]
      unfold addL
      rw [alistDelete_set_ne m _ hne, alistGet_delete_ne m hne]
    · rw [if_neg hlen, if_neg hlen]
      unfold addL
      rw [alistGet_set_ne m _ hne]
      exact alistSet_set_ne m _ _ hne (by rw [hget]; rfl)

/-- `removeL` of one fresh callback commutes past a fold of `addL` steps on
other names. -/
theorem removeL_addLFold_comm (n : String) (b : Nat) :
    ∀ (rs : List (String × Nat × Int)) (m : List (String × List Entry)),
      n ∉ rs.map Prod.fst →
      removeL (rs.foldl (fun m r => addL m r.1 r.2.1 r.2.2) m) n b
        = rs.foldl (fun m r => addL m r.1 r.2.1 r.2.2) (removeL m n b) := by
  intro rs
  induction rs with
  | nil => intro m _; rfl
  | cons r rest ih =>
    intro m hnot
    have hr : n ≠ r.1 := fun h => hnot (by rw [List.map_cons, h]; exact List.mem_cons_self _ _)
    have hrest : n ∉ rest.map Prod.fst := fun h => hnot (by
      rw [List.map_cons]; exact List.mem_cons_of_mem _ h)
    rw [List.foldl_cons, List.foldl_cons, ih (addL m r.1 r.2.1 r.2.2) hrest,
      removeL_addL_comm m b r.2.1 r.2.2 hr]

/-- Freshness of a callback under a name survives `addL` steps on other
names. -/
theorem fresh_after_addLFold (n : String) (b : Nat) :
    ∀ (rs : List (String × Nat × Int)) (m : List (String × List Entry)),
      n ∉ rs.map Prod.fst →
      (∀ e ∈ (alistGet m n).getD [], e.listener ≠ b) →
      ∀ e ∈ (alistGet (rs.foldl (fun m r => addL m r.1 r.2.1 r.2.2) m) n).getD [],
        e.listener ≠ b := by
  intro rs
  induction rs with
  | nil => intro m _ h; exact h
  | cons r rest ih =>
    intro m hnot h
    have hr : n ≠ r.1 := fun hh => hnot (by rw [List.map_cons, hh]; exact List.mem_cons_self _ _)
    have hrest : n ∉ rest.map Prod.fst := fun hh => hnot (by
      rw [List.map_cons]; exact List.mem_cons_of_mem _ hh)
    rw [List.foldl_cons]
    refine ih (addL m r.1 r.2.1 r.2.2) hrest ?_
    rw [alistGet_addL_ne m r.2.1 r.2.2 (Ne.symm hr)]
    exact h

/-- Nonemptiness of every stored entry list is preserved by `addL`. -/
theorem wf_addL (m : List (String × List Entry)) (n : String) (b : Nat) (p : Int)
    (hwf : ∀ q ∈ m, q.2 ≠ []) : ∀ q ∈ addL m n b p, q.2 ≠ [] := by
  intro q hq
  rcases mem_alistSet m n _ q hq with h | h
  · exact hwf q h
  · rw [h]
    simp

/-- The round trip at the map level: folding fresh `addL` registrations with
pairwise-distinct names and then removing exactly those callbacks, in the
same order, restores the `listeners` map. -/
theorem removeLFold_addLFold_cancel :
    ∀ (rs : List (String × Nat × Int)) (m : List (String × List Entry)),
      (rs.map Prod.fst).Nodup →
      (∀ r ∈ rs, ∀ e ∈ (alistGet m r.1).getD [], e.listener ≠ r.2.1) →
      (∀ q ∈ m, q.2 ≠ []) →
      (rs.map (fun r => (r.1, r.2.1))).foldl (fun m q => removeL m q.1 q.2)
        (rs.foldl (fun m r => addL m r.1 r.2.1 r.2.2) m) = m := by
  intro rs
  induction rs with
  | nil => intro m _ _ _; rfl
  | cons r rest ih =>
    intro m hnd hfresh hwf
    rw [List.map_cons, List.foldl_cons, List.foldl_cons]
    rw [List.map_cons, List.nodup_cons] at hnd
    rw [removeL_addLFold_comm r.1 r.2.1 rest (addL m r.1 r.2.1 r.2.2) hnd.1]
    rw [removeL_addL_cancel m r.1 r.2.1 r.2.2
      (hfresh r (List.mem_cons_self _ _)) hwf]
    exact ih m hnd.2 (fun q hq => hfresh q (List.mem_cons_of_mem _ hq)) hwf

/-- Folding `addListener` over triples, projected to the `listeners` map. -/
theorem addListenerFold_listeners :
    ∀ (rs : List (String × Nat × Int)) (d : SimpleEventDispatcher),
      (rs.foldl (fun c r => SimpleEventDispatcher.addListener c r.1 r.2.1 r.2.2) d).listeners
        = rs.foldl (fun m r => addL m r.1 r.2.1 r.2.2) d.listeners := by
  intro rs
  induction rs with
  | nil => intro d; rfl
  | cons r rest ih =>
    intro d
    rw [List.foldl_cons, List.foldl_cons, ih, addListener_listeners]

/-- Folding `removeListener` over pairs, projected to the `listeners` map. -/
theorem removeListenerFold_listeners :
    ∀ (ps : List (String × Nat)) (d : SimpleEventDispatcher),
      (ps.foldl (fun c q => SimpleEventDispatcher.removeListener c q.1 q.2) d).listeners
        = ps.foldl (fun m q => removeL m q.1 q.2) d.listeners := by
  intro ps
  induction ps with
  | nil => intro d; rfl
  | cons q rest ih =>
    intro d
    rw [List.foldl_cons, List.foldl_cons, ih, removeListener_listeners]

/-- The `addSubscriber` fold splits into an `addListener` fold on the core
(first component) and an `alistSet` fold building the bound-listeners map
(second component). -/
theorem addSubscriberFold_split (bind : String → Nat) :
    ∀ (events : List (String × SubscriberParams))
      (c : SimpleEventDispatcher) (acc : List (String × Nat)),
      events.foldl (fun (a : SimpleEventDispatcher × List (String × Nat))
          (entry : String × SubscriberParams) =>
        (SimpleEventDispatcher.addListener a.1 entry.1 (bind entry.1)
          (subscriberPriority entry.2),
         alistSet a.2 entry.1 (bind entry.1))) (c, acc)
      = ((events.map (fun e => (e.1, bind e.1, subscriberPriority e.2))).foldl
          (fun c r => SimpleEventDispatcher.addListener c r.1 r.2.1 r.2.2) c,
         events.foldl (fun a e => alistSet a e.1 (bind e.1)) acc) := by
  intro events
  induction events with
  | nil => intro c acc; rfl
  | cons e rest ih =>
    intro c acc
    rw [List.foldl_cons, List.map_cons, List.foldl_cons]
    exact ih _ _

/-- With pairwise-distinct keys none of which is already bound, the
`boundListeners` fold produces exactly the name-to-bound-id list in
subscription order. -/
theorem boundFold_eq (bind : String → Nat) :
    ∀ (events : List (String × SubscriberParams)) (acc : List (String × Nat)),
      (events.map Prod.fst).Nodup →
      (∀ e ∈ events, alistGet acc e.1 = none) →
      events.foldl (fun a e => alistSet a e.1 (bind e.1)) acc
        = acc ++ events.map (fun e => (e.1, bind e.1)) := by
  intro events
  induction events with
  | nil => intro acc _ _; simp
  | cons e rest ih =>
    intro acc hnd hacc
    rw [List.map_cons, List.nodup_cons] at hnd
    rw [List.foldl_cons,
      alistSet_of_not_mem acc (bind e.1) (hacc e (List.mem_cons_self _ _))]
    rw [ih (acc ++ [(e.1, bind e.1)]) hnd.2 ?_]
    · simp
    · intro f hf
      have hfe : f.1 ≠ e.1 := by
        intro hh
        exact hnd.1 (hh ▸ List.mem_map_of_mem Prod.fst hf)
      exact alistGet_append_single acc _ hfe (hacc f (List.mem_cons_of_mem _ hf))

/-- `hasListeners` reads only the `listeners` map. -/
theorem hasListeners_congr {d₁ d₂ : SimpleEventDispatcher}
    (h : d₁.listeners = d₂.listeners) (eventName : Option String) :
    SimpleEventDispatcher.hasListeners d₁ eventName
      = SimpleEventDispatcher.hasListeners d₂ eventName := by
  unfold SimpleEventDispatcher.hasListeners
  rw [h]

/-- `addSubscriber` in split form: the core receives the `addListener` fold
over the resolved (name, bound id, priority) triples, and the subscriber
record maps to the (name, bound id) pairs in subscription order. -/
theorem addSubscriber_eq (st : AbstractEventDispatcher) (s : Subscriber)
    (bind : String → Nat) (hnd : (s.events.map Prod.fst).Nodup) :
    AbstractEventDispatcher.addSubscriber st s bind
      = ⟨(s.events.map (fun e => (e.1, bind e.1, subscriberPriority e.2))).foldl
           (fun c r => SimpleEventDispatcher.addListener c r.1 r.2.1 r.2.2) st.core,
         alistSet st.subscriberListeners s.id
           (s.events.map (fun e => (e.1, bind e.1)))⟩ := by
  unfold AbstractEventDispatcher.addSubscriber
  show (⟨(s.events.foldl (fun (acc : SimpleEventDispatcher × List (String × Nat))
        (entry : String × SubscriberParams) =>
      (SimpleEventDispatcher.addListener acc.1 entry.1 (bind entry.1)
        (subscriberPriority entry.2),
       alistSet acc.2 entry.1 (bind entry.1))) (st.core, [])).1,
     alistSet st.subscriberListeners s.id
       (s.events.foldl (fun (acc : SimpleEventDispatcher × List (String × Nat))
          (entry : String × SubscriberParams) =>
        (SimpleEventDispatcher.addListener acc.1 entry.1 (bind entry.1)
          (subscriberPriority entry.2),
         alistSet acc.2 entry.1 (bind entry.1))) (st.core, [])).2⟩
      : AbstractEventDispatcher) = _
  rw [addSubscriberFold_split bind s.events st.core []]
  rw [boundFold_eq bind s.events [] hnd (fun e _ => rfl)]
  simp

/-- C6: `addSubscriber(s)` immediately followed by `removeSubscriber(s)`
restores the `listeners` registry exactly — hence `hasListeners(name)`
returns to its pre-add value for every name (those `s` subscribed to
included), and every listener entry registered independently of `s` is
still present with unchanged priority and position, even under the same
event names.  Hypotheses: the subscription map has distinct keys (a JS
object's keys are), the bound listeners are fresh function objects
(`Function.prototype.bind` always returns a new one), and stored entry
lists are nonempty (true in every reachable state). -/
theorem claim_C6_subscriber_symmetry (st : AbstractEventDispatcher) (s : Subscriber)
    (bind : String → Nat)
    (hnd : (s.events.map Prod.fst).Nodup)
    (hfresh : ∀ e ∈ s.events, ∀ x ∈ (alistGet st.core.listeners e.1).getD [],
      x.listener ≠ bind e.1)
    (hwf : ∀ q ∈ st.core.listeners, q.2 ≠ []) :
    (AbstractEventDispatcher.removeSubscriber
        (AbstractEventDispatcher.addSubscriber st s bind) s).core.listeners
      = st.core.listeners ∧
    ∀ eventName : Option String,
      SimpleEventDispatcher.hasListeners
        ((AbstractEventDispatcher.removeSubscriber
            (AbstractEventDispatcher.addSubscriber st s bind) s).core) eventName
        = SimpleEventDispatcher.hasListeners st.core eventName := by
  have hmain : (AbstractEventDispatcher.removeSubscriber
      (AbstractEventDispatcher.addSubscriber st s bind) s).core.listeners
      = st.core.listeners := by
    rw [addSubscriber_eq st s bind hnd]
    unfold AbstractEventDispatcher.removeSubscriber
    rw [alistGet_set_self]
    rw [removeListenerFold_listeners, addListenerFold_listeners]
    have hpairs : s.events.map (fun e => (e.1, bind e.1))
        = (s.events.map (fun e => (e.1, bind e.1, subscriberPriority e.2))).map
            (fun r => (r.1, r.2.1)) := by
      simp
    rw [hpairs]
    apply removeLFold_addLFold_cancel
    · simpa using hnd
    · intro r hr
      rcases List.mem_map.1 hr with ⟨e, he, hre⟩
      rw [← hre]
      exact hfresh e he
    · exact hwf
  exact ⟨hmain, fun eventName => hasListeners_congr hmain eventName⟩

/-- Witness for C6: on a registry with an independent listener under `"x"`,
adding and then removing the subscriber restores the registry exactly, and
`hasListeners` agrees before and after on the subscribed names, an
independent name and the global query. -/
theorem claim_C6_witness :
    (AbstractEventDispatcher.removeSubscriber
        (AbstractEventDispatcher.addSubscriber ⟨sampleReg, []⟩ sub0 bind0)
        sub0).core.listeners
      = (⟨sampleReg, []⟩ : AbstractEventDispatcher).core.listeners ∧
    SimpleEventDispatcher.hasListeners
        ((AbstractEventDispatcher.removeSubscriber
            (AbstractEventDispatcher.addSubscriber ⟨sampleReg, []⟩ sub0 bind0)
            sub0).core) (some "y")
      = SimpleEventDispatcher.hasListeners sampleReg (some "y") ∧
    SimpleEventDispatcher.hasListeners
        ((AbstractEventDispatcher.removeSubscriber
            (AbstractEventDispatcher.addSubscriber ⟨sampleReg, []⟩ sub0 bind0)
            sub0).core) (some "x")
      = SimpleEventDispatcher.hasListeners sampleReg (some "x") := by
  have h := claim_C6_subscriber_symmetry ⟨sampleReg, []⟩ sub0 bind0
    (by decide) (by decide) (by decide)
  exact ⟨h.1, h.2 (some "y"), h.2 (some "x")⟩
